import Mathlib

/-!
# Verification of the network-dashboard data-cleaning and navigation logic

A shallow embedding, in Lean 4, of the data-handling core of the
`network-dashboard` Streamlit application:

* `src/utils/helpers.py` — `find_site_column`, `clean_date_format`,
  `clean_numeric_data` (with its inner `clean_european_number`), and
  `parse_datetime_column`;
* `src/utils/data_loader.py` — `detect_dataset_type`;
* `src/app.py` — the per-file branch of the upload handler;
* `src/modules/provision.py` — the drill-down selection state machine
  (`reset_lower_levels` and the three guarded select-box handlers);
* `src/modules/averias.py` / `src/modules/desempeño.py` — the site filter.

Strings are modelled as `List Char`; a dataframe is a list of named columns;
a cell is either missing (`NaN`/`NaT`), a raw string, an exact decimal number
`m / 10 ^ e` (an idealisation of the binary float that `pd.to_numeric`
produces: exact decimals instead of rounded binary), a timestamp, a date, or
a timedelta-in-minutes (stored as whole seconds; its value is `secs / 60`
minutes).  `pd.to_numeric(errors := coerce)` is modelled on plain decimal
notation (optional sign, digits, at most one point); `pd.to_datetime` with
the fixed format string is modelled by an explicit parser for
`%b %d, %Y %H:%M:%S` (case-insensitive month abbreviation, 1-2 digit day,
hour, minute, second, 1-4 digit year, whitespace runs for literal blanks,
full-string match, calendar validation), and `str()` of a timestamp by its
ISO rendering `YYYY-MM-DD HH:MM:SS`.
-/

namespace NetDash

/-- Processed text: Python strings are modelled as lists of characters. -/
abbrev Str := List Char

/-- The whitespace characters of Python's `str.strip` (ASCII). -/
def isSpaceChar (c : Char) : Bool :=
  c = ' ' || c = '\t' || c = '\n' || c = '\r' || c = Char.ofNat 11 || c = Char.ofNat 12

/-- Strip leading whitespace (one side of Python's `str.strip`). -/
def trimL (s : Str) : Str := s.dropWhile isSpaceChar

/-- Python's `str.strip()`: whitespace removed from both ends. -/
def trimChars (s : Str) : Str := trimL ((trimL s.reverse).reverse)

/-- ASCII lowercasing of one character (the case folding that
`str.lower()` and `strptime`'s case-insensitive matching perform on the
ASCII inputs this application feeds them). -/
def lowerA (c : Char) : Char :=
  if 'A' ≤ c && c ≤ 'Z' then Char.ofNat (c.toNat + 32) else c

/-- The character of the decimal digit `d`. -/
def digitChar0 (d : Nat) : Char := Char.ofNat (48 + d)

/-- The decimal value of a digit character. -/
def digitVal (c : Char) : Nat := c.toNat - 48

/-- Python's `str.split(sep)` for a one-character separator: the list of
(possibly empty) groups between occurrences of `sep`. -/
def splitOnChar (sep : Char) : Str → List Str
  | [] => [[]]
  | c :: cs =>
    if c = sep then [] :: splitOnChar sep cs
    else
      match splitOnChar sep cs with
      | [] => [[c]]
      | g :: gs => (c :: g) :: gs

/-- Python's `pat in s` substring test. -/
def containsSub (s pat : Str) : Bool := s.tails.any (fun t => pat.isPrefixOf t)

/-- Worker for `replaceSub`: `skip` pending characters are dropped (they
were already covered by an emitted replacement). -/
def replAux (pat rep : Str) : Nat → Str → Str
  | _, [] => []
  | k + 1, _ :: cs => replAux pat rep k cs
  | 0, c :: cs =>
    if pat.isPrefixOf (c :: cs) then rep ++ replAux pat rep (pat.length - 1) cs
    else c :: replAux pat rep 0 cs

/-- Python's `str.replace(pat, rep)`: leftmost, non-overlapping. -/
def replaceSub (pat rep s : Str) : Str :=
  if pat = [] then s else replAux pat rep 0 s

/-- Little-endian decimal digits of `n`, with fuel (`fuel ≥ n` suffices). -/
def natLEF : Nat → Nat → Str
  | _, 0 => []
  | 0, _ + 1 => []
  | f + 1, n + 1 => digitChar0 ((n + 1) % 10) :: natLEF f ((n + 1) / 10)

/-- Big-endian decimal digit characters of `n` (empty for `0`). -/
def natBE (n : Nat) : Str := (natLEF n n).reverse

/-- The value of a big-endian run of digit characters. -/
def parseBE (cs : Str) : Nat := cs.foldl (fun a c => 10 * a + digitVal c) 0

/-- Left-pad a digit string with `'0'` up to width `k`. -/
def padZeros (k : Nat) (l : Str) : Str :=
  List.replicate (k - l.length) (digitChar0 0) ++ l

/-- `n` written with at least `k` digits. -/
def natPad (k n : Nat) : Str := padZeros k (natBE n)

/-!
## Numbers: `str(float)` and `pd.to_numeric`

A numeric cell is the exact decimal `m / 10 ^ e`.  `reprDec` renders it the
way the second pass of `clean_numeric_data` sees it through `str(value)`
(sign, integer digits, and exactly `e` fractional digits; `str(float)`'s
`"1234.0"` for integers reparses to the same value, so rendering `"1234"`
is an immaterial difference), and `parseFloat` models
`pd.to_numeric(errors := coerce)` on plain decimal notation.
-/

/-- Decimal rendering of the non-negative value `n / 10 ^ e`. -/
def reprDecNonneg (n e : Nat) : Str :=
  let ds := natPad (e + 1) n
  if e = 0 then ds else ds.take (ds.length - e) ++ '.' :: ds.drop (ds.length - e)

/-- Decimal rendering of the value `m / 10 ^ e`. -/
def reprDec (m : Int) (e : Nat) : Str :=
  (if m < 0 then ['-'] else []) ++ reprDecNonneg m.natAbs e

/-- Strip one leading sign character. -/
def stripSign (t : Str) : Bool × Str :=
  match t with
  | [] => (false, [])
  | c :: r => if c = '-' then (true, r) else if c = '+' then (false, r) else (false, c :: r)

/-- All characters are decimal digits. -/
def allDigits (l : Str) : Bool := l.all Char.isDigit

/-- The unsigned part of `parseFloat`: digit groups around at most one
point. -/
def parseFloatCore (neg : Bool) (u : Str) : Option (Int × Nat) :=
  let mk : Nat → Nat → Option (Int × Nat) :=
    fun n e => some (if neg then -(n : Int) else (n : Int), e)
  match splitOnChar '.' u with
  | [ip] => if ip ≠ [] && allDigits ip then mk (parseBE ip) 0 else none
  | [ip, fp] =>
    if (ip ≠ [] || fp ≠ []) && allDigits ip && allDigits fp then
      mk (parseBE (ip ++ fp)) fp.length
    else none
  | _ => none

/-- `pd.to_numeric(errors := coerce)` on one string, for plain decimal
notation `[+-]? digits [. digits]` (exponent and infinity forms, which
never round-trip through this code path, are treated as unparseable):
the exact value `m / 10 ^ e`, or `none` (NaN). -/
def parseFloat (s : Str) : Option (Int × Nat) :=
  let p := stripSign (trimChars s)
  parseFloatCore p.1 p.2

/-- A decimal digit character, as produced by the renderers. -/
def IsDigitChar (c : Char) : Prop := ∃ d, d < 10 ∧ c = digitChar0 d

/-!
## Timestamps: `pd.to_datetime(format := "%b %d, %Y %H:%M:%S")` and `str()`
-/

/-- A parsed timestamp (`pd.Timestamp`, to the second — the only precision
this code produces). -/
structure Timestamp where
  year : Nat
  month : Nat
  day : Nat
  hour : Nat
  minute : Nat
  second : Nat
deriving DecidableEq, Repr

/-- The `%b` table: lowercase month abbreviation and month number. -/
def monthTable : List (Str × Nat) :=
  [(['j', 'a', 'n'], 1), (['f', 'e', 'b'], 2), (['m', 'a', 'r'], 3),
   (['a', 'p', 'r'], 4), (['m', 'a', 'y'], 5), (['j', 'u', 'n'], 6),
   (['j', 'u', 'l'], 7), (['a', 'u', 'g'], 8), (['s', 'e', 'p'], 9),
   (['o', 'c', 't'], 10), (['n', 'o', 'v'], 11), (['d', 'e', 'c'], 12)]

/-- Case-insensitively strip the abbreviation `ab` from the front of `cs`. -/
def stripAbbrev (ab : Str) (cs : Str) : Option Str :=
  match ab, cs with
  | [], rest => some rest
  | _ :: _, [] => none
  | a :: ab, c :: cs => if lowerA c = a then stripAbbrev ab cs else none

/-- Match `%b`: one month abbreviation, case-insensitively. -/
def parseMonth (cs : Str) : Option (Nat × Str) :=
  monthTable.findSome? (fun r => (stripAbbrev r.1 cs).map (fun rest => (r.2, rest)))

/-- At least one whitespace character, then any further run (strptime turns
a literal blank in the format into `\s+`). -/
def eatWs1 : Str → Option Str
  | [] => none
  | c :: r => if isSpaceChar c then some (r.dropWhile isSpaceChar) else none

/-- One literal character. -/
def lit (c : Char) : Str → Option Str
  | [] => none
  | x :: r => if x = c then some r else none

/-- Take greedily up to `max` leading digit characters. -/
def takeDigitsAux : Nat → Str → Str × Str
  | 0, s => ([], s)
  | _ + 1, [] => ([], [])
  | k + 1, c :: r =>
    if c.isDigit then
      let p := takeDigitsAux k r
      (c :: p.1, p.2)
    else ([], c :: r)

/-- A run of 1 to `maxd` digits whose value lies in `[lo, hi]`. -/
def readNum (maxd lo hi : Nat) (s : Str) : Option (Nat × Str) :=
  let p := takeDigitsAux maxd s
  if p.1 ≠ [] && lo ≤ parseBE p.1 && parseBE p.1 ≤ hi then some (parseBE p.1, p.2)
  else none

/-- Gregorian leap year. -/
def isLeap (y : Nat) : Bool := (y % 4 = 0 && y % 100 ≠ 0) || y % 400 = 0

/-- Days in a month (the validation `datetime` performs on strptime's
fields). -/
def daysInMonth (y m : Nat) : Nat :=
  if m = 2 then (if isLeap y then 29 else 28)
  else if m = 4 || m = 6 || m = 9 || m = 11 then 30
  else 31

/-- `pd.to_datetime(format := "%b %d, %Y %H:%M:%S", errors := coerce)` on
one cleaned string: full-string match or `none` (NaT). -/
def parseTS (s : Str) : Option Timestamp := do
  let mo ← parseMonth s
  let r2 ← eatWs1 mo.2
  let d ← readNum 2 1 31 r2
  let r4 ← lit ',' d.2
  let r5 ← eatWs1 r4
  let y ← readNum 4 1 9999 r5
  let r7 ← eatWs1 y.2
  let h ← readNum 2 0 23 r7
  let r9 ← lit ':' h.2
  let mi ← readNum 2 0 59 r9
  let r11 ← lit ':' mi.2
  let se ← readNum 2 0 59 r11
  if se.2 = [] ∧ d.1 ≤ daysInMonth y.1 mo.1 then
    some ⟨y.1, mo.1, d.1, h.1, mi.1, se.1⟩
  else none

/-- `str(pd.Timestamp)`: the ISO rendering `YYYY-MM-DD HH:MM:SS`. -/
def strTS (t : Timestamp) : Str :=
  natPad 4 t.year ++ '-' :: natPad 2 t.month ++ '-' :: natPad 2 t.day ++
    ' ' :: natPad 2 t.hour ++ ':' :: natPad 2 t.minute ++ ':' :: natPad 2 t.second

/-- Days since 1970-01-01 of a civil date (Hinnant's `days_from_civil`;
all divisions act on non-negative operands for the years this parser
accepts). -/
def daysFromCivil (y : Int) (m d : Nat) : Int :=
  let y2 : Int := if m ≤ 2 then y - 1 else y
  let era : Int := (if 0 ≤ y2 then y2 else y2 - 399) / 400
  let yoe : Int := y2 - era * 400
  let doy : Int := (153 * (if 2 < m then (m : Int) - 3 else (m : Int) + 9) + 2) / 5 + d - 1
  let doe : Int := yoe * 365 + yoe / 4 - yoe / 100 + doy
  era * 146097 + doe - 719468

/-- Seconds since the epoch of a timestamp. -/
def tsSecs (t : Timestamp) : Int :=
  daysFromCivil t.year t.month t.day * 86400 + t.hour * 3600 + t.minute * 60 + t.second

/-- `Series.dt.day_name()` values. -/
def dayNames : List Str :=
  ["Monday".toList, "Tuesday".toList, "Wednesday".toList, "Thursday".toList,
   "Friday".toList, "Saturday".toList, "Sunday".toList]

/-- The weekday name of a timestamp (1970-01-01 was a Thursday). -/
def dayName (t : Timestamp) : Str :=
  dayNames.getD ((daysFromCivil t.year t.month t.day + 3) % 7).toNat "Monday".toList

/-!
## Cells and dataframes
-/

/-- One dataframe cell: missing (`NaN`/`NaT`), a raw string, the exact
decimal `m / 10 ^ e` (a `to_numeric` float), a timestamp, a `dt.date`
value, or a duration of `secs / 60` minutes (a timedelta's
`total_seconds() / 60`; kept exact as whole seconds because `1/60` has
no finite decimal form). -/
inductive Cell where
  | na : Cell
  | cstr : Str → Cell
  | cnum : Int → Nat → Cell
  | cts : Timestamp → Cell
  | cdate : Nat → Nat → Nat → Cell
  | cdur : Int → Cell
deriving DecidableEq, Repr

/-- Python's `str()` of a cell value.  `na` never reaches `str()` (both
cleaners test `pd.isna` first).  For `cdur` the decimal expansion of the
binary float `secs / 60` is not finitely representable; the placeholder
keeps the two facts later processing inspects: it starts with a sign or
digit and is not plain decimal notation. -/
def pythonStrCell : Cell → Str
  | Cell.na => "nan".toList
  | Cell.cstr s => s
  | Cell.cnum m e => reprDec m e
  | Cell.cts t => strTS t
  | Cell.cdate y m d => natPad 4 y ++ '-' :: natPad 2 m ++ '-' :: natPad 2 d
  | Cell.cdur s => reprDec s 0 ++ "/60min".toList

/-- A dataframe: named columns in order (names unique after the loader's
deduplication), each a list of cells. -/
abbrev Df := List (String × List Cell)

/-- Column lookup (`df[name]` / `name in df.columns`). -/
def getCol (df : Df) (n : String) : Option (List Cell) :=
  (df.find? (fun p => p.1 == n)).map (fun p => p.2)

/-- Column assignment: replace in place when present, append otherwise
(pandas column assignment). -/
def setCol (df : Df) (n : String) (v : List Cell) : Df :=
  if df.any (fun p => p.1 == n) then
    df.map (fun p => if p.1 == n then (n, v) else p)
  else df ++ [(n, v)]

/-- `df.drop(columns = [n])`. -/
def dropCol (df : Df) (n : String) : Df := df.filter (fun p => p.1 != n)

/-- Apply `f` to every cell of column `n` if it is present
(`df[n] = df[n].apply(f)` guarded by `n in df.columns`). -/
def mapCol (df : Df) (n : String) (f : Cell → Cell) : Df :=
  df.map (fun p => if p.1 == n then (p.1, p.2.map f) else p)

/-!
## `clean_numeric_data` (src/utils/helpers.py, lines 41-90)
-/

/-- The string body of `clean_european_number`
(after the `pd.isna` test): `str(value).strip().replace(quote, empty)`,
the no-digit test, then the comma/period policy. -/
def cleanEuropeanStr (s : Str) : Option Str :=
  let str_val := (trimChars s).filter (fun c => c ≠ Char.ofNat 34)
  if str_val.any Char.isDigit = false then none
  else
    some (if ',' ∈ str_val ∧ '.' ∈ str_val then
            str_val.filter (fun c => c ≠ ',')
          else if ',' ∈ str_val ∧ '.' ∉ str_val then
            let parts := splitOnChar ',' str_val
            if parts.length = 2 ∧ (parts.getD 1 []).length ≤ 3 ∧
                0 < (parts.getD 1 []).length then
              str_val.map (fun c => if c = ',' then '.' else c)
            else str_val.filter (fun c => c ≠ ',')
          else str_val)

/-- `clean_european_number` on one cell: `None` for `pd.isna`, otherwise
the cleaned string. -/
def clean_european_number (c : Cell) : Option Str :=
  if c = Cell.na then none else cleanEuropeanStr (pythonStrCell c)

/-- One cell through `clean_european_number` then
`pd.to_numeric(errors := coerce)`. -/
def cleanNumCell (c : Cell) : Cell :=
  match clean_european_number c with
  | none => Cell.na
  | some s =>
    match parseFloat s with
    | none => Cell.na
    | some p => Cell.cnum p.1 p.2

/-- `clean_numeric_data`: each listed column that exists is cleaned and
converted; other columns are untouched. -/
def clean_numeric_data (df : Df) (columns : List String) : Df :=
  columns.foldl (fun d col => mapCol d col cleanNumCell) df

/-- The spec's ordered policy for the numeric normalizer, written from the
wording of §4.1 / claim C2 (over the canonicalised string, with group
length measured in characters): no digit → missing; comma and period →
strip commas; only comma, exactly 2 groups, second group 1-3 long →
comma becomes the decimal point; only comma otherwise → strip commas;
otherwise unchanged. -/
def cleanPolicySpec (s : Str) : Option Str :=
  let t := (trimChars s).filter (fun c => c ≠ Char.ofNat 34)
  if t.any Char.isDigit = false then none
  else if ',' ∈ t ∧ '.' ∈ t then some (t.filter (fun c => c ≠ ','))
  else if ',' ∈ t ∧ (splitOnChar ',' t).length = 2 ∧
      1 ≤ ((splitOnChar ',' t).getD 1 []).length ∧
      ((splitOnChar ',' t).getD 1 []).length ≤ 3 then
    some (t.map (fun c => if c = ',' then '.' else c))
  else if ',' ∈ t then some (t.filter (fun c => c ≠ ','))
  else some t

/-!
## `clean_date_format` and `parse_datetime_column` (src/utils/helpers.py)
-/

/-- `clean_date_format`: `None` for missing/empty/"nan", otherwise
`str(x).replace(" @ ", " ").replace(".000", "").strip()`. -/
def clean_date_format (cell : Cell) : Option Str :=
  if cell = Cell.na then none
  else if pythonStrCell cell = [] then none
  else if (pythonStrCell cell).map lowerA = "nan".toList then none
  else some (trimChars (replaceSub ".000".toList []
    (replaceSub " @ ".toList [' '] (pythonStrCell cell))))

/-- The cleaned strings of a column. -/
def dtClean (col : List Cell) : List (Option Str) := col.map clean_date_format

/-- The `pd.to_datetime` series of a column. -/
def dtSer (col : List Cell) : List (Option Timestamp) :=
  (dtClean col).map (fun o => o.bind parseTS)

/-- `valid_dates`: the count of rows that parsed. -/
def dtValid (col : List Cell) : Nat := (dtSer col).countP (fun o => o.isSome)

/-- A cell no run of `parse_datetime_column` can parse: cleaning then
parsing yields `NaT`.  Every cell the function ever writes back is inert,
which is what makes a second run leave the column alone. -/
abbrev DTInert (c : Cell) : Prop := (clean_date_format c).bind parseTS = none

/-- A first character that blocks both the `== nan` test's match and any
`%b` month match, and survives the cleanup replacements untouched: not
whitespace, not a period, and (case-folded) none of the month initials. -/
abbrev HeadSafe (c : Char) : Prop :=
  isSpaceChar c = false ∧ c ≠ ' ' ∧ c ≠ '.' ∧
  lowerA c ≠ 'j' ∧ lowerA c ≠ 'f' ∧ lowerA c ≠ 'm' ∧ lowerA c ≠ 'a' ∧
  lowerA c ≠ 's' ∧ lowerA c ≠ 'o' ∧ lowerA c ≠ 'n' ∧ lowerA c ≠ 'd'

/-- The `<name>_clean` helper column's cells. -/
def optStrCell : Option Str → Cell
  | none => Cell.na
  | some s => Cell.cstr s

/-- The overwritten datetime column's cells. -/
def optTsCell : Option Timestamp → Cell
  | none => Cell.na
  | some t => Cell.cts t

/-- Derived `hour` cells. -/
def hourCell : Option Timestamp → Cell
  | none => Cell.na
  | some t => Cell.cnum t.hour 0

/-- Derived `date` cells. -/
def dateCell : Option Timestamp → Cell
  | none => Cell.na
  | some t => Cell.cdate t.year t.month t.day

/-- Derived `day_of_week` cells. -/
def dowCell : Option Timestamp → Cell
  | none => Cell.na
  | some t => Cell.cstr (dayName t)

/-- Derived `month` cells. -/
def monthCell : Option Timestamp → Cell
  | none => Cell.na
  | some t => Cell.cnum t.month 0

/-- Derived `year` cells. -/
def yearCell : Option Timestamp → Cell
  | none => Cell.na
  | some t => Cell.cnum t.year 0

/-- The five derived calendar columns, in the order the code assigns
them. -/
def derivedStep (df : Df) (dt : List (Option Timestamp)) : Df :=
  setCol (setCol (setCol (setCol (setCol df "hour" (dt.map hourCell))
    "date" (dt.map dateCell)) "day_of_week" (dt.map dowCell))
    "month" (dt.map monthCell)) "year" (dt.map yearCell)

/-- `end_time − start_time` in minutes for one row (`NaT` propagates). -/
def durCell : Cell → Cell → Cell
  | Cell.cts a, Cell.cts b => Cell.cdur (tsSecs b - tsSecs a)
  | _, _ => Cell.na

/-- A column has pandas datetime dtype: in this model, a column the code
has materialised as timestamps (at least one timestamp, the rest `NaT`). -/
def isDatetimeCells (c : List Cell) : Bool :=
  (c.any fun x => match x with | Cell.cts _ => true | _ => false) &&
    (c.all fun x => match x with | Cell.cts _ => true | Cell.na => true | _ => false)

/-- The duration column to write, when `start_time` and `end_time` exist
and both have datetime dtype. -/
def durFire (df : Df) : Option (List Cell) :=
  match getCol df "start_time", getCol df "end_time" with
  | some s, some e =>
    if isDatetimeCells s && isDatetimeCells e then some (List.zipWith durCell s e)
    else none
  | _, _ => none

/-- The trailing `duration_minutes` computation of `parse_datetime_column`. -/
def durationStep (df : Df) : Df :=
  match durFire df with
  | some v => setCol df "duration_minutes" v
  | none => df

/-- `parse_datetime_column`: clean into `<name>_clean`, parse it against
the fixed format, overwrite the original column (and derive calendar
fields) only when at least one row parsed, drop the helper column,
recompute `duration_minutes`, and return the success flag. -/
def parse_datetime_column (df : Df) (column_name : String)
    (create_derived_fields : Bool) : Df × Bool :=
  match getCol df column_name with
  | none => (df, false)
  | some col =>
    let df1 := setCol df (column_name ++ "_clean") ((dtClean col).map optStrCell)
    let df2 :=
      if 0 < dtValid col then
        if create_derived_fields then
          derivedStep (setCol df1 column_name ((dtSer col).map optTsCell)) (dtSer col)
        else setCol df1 column_name ((dtSer col).map optTsCell)
      else df1
    (durationStep (dropCol df2 (column_name ++ "_clean")), decide (0 < dtValid col))

/-!
## `find_site_column` (src/utils/helpers.py, lines 11-22)
-/

/-- The fixed candidate names, in the order the code tries them. -/
def siteColumnCandidates : List String := ["Site_Name", "site_name", "SITE_NAME", "site"]

/-- `find_site_column` on a dataframe's column names: the first candidate
that is literally present. -/
def find_site_column (cols : List String) : Option String :=
  siteColumnCandidates.find? (fun c => cols.contains c)

/-!
## The site filter (src/modules/averias.py 697-701, src/modules/desempeño.py 147-151)
-/

/-- A row, for the row-oriented site filter. -/
abbrev Row := List (String × Cell)

/-- `row[col]`. -/
def lookupCell (r : Row) (n : String) : Option Cell :=
  (r.find? (fun p => p.1 == n)).map (fun p => p.2)

/-- `df[site_col].isin(sel)` for one row (a missing or non-string value is
never in a list of strings). -/
def rowInSites (siteCol : String) (sel : List Str) (r : Row) : Bool :=
  match lookupCell r siteCol with
  | some (Cell.cstr v) => sel.contains v
  | _ => false

/-- The guarded site filter: `if sites_seleccionados:
df = df[df[site_col].isin(sites_seleccionados)]` — an empty selection
leaves the dataset unfiltered. -/
def filter_by_sites (rows : List Row) (siteCol : String) (sel : List Str) : List Row :=
  if sel.isEmpty then rows else rows.filter (rowInSites siteCol sel)

/-!
## `detect_dataset_type` (src/utils/data_loader.py) and the upload handler
-/

/-- The 7 dataset categories. -/
inductive DType where
  | Averias | Desempeno | Configuration | Provision | Disponibilidad | Calidad | Proyectos
deriving DecidableEq, Repr

/-- `detection_rules`, in insertion order. -/
def detection_rules : List (DType × List Str) :=
  [(DType.Averias, ["averia".toList, "alarm".toList, "fault".toList]),
   (DType.Desempeno, ["desempe".toList, "performance".toList, "kpi".toList]),
   (DType.Configuration, ["config".toList, "configuracion".toList]),
   (DType.Provision, ["provision".toList, "provisi".toList]),
   (DType.Disponibilidad, ["dispon".toList, "availability".toList]),
   (DType.Calidad, ["calidad".toList, "quality".toList]),
   (DType.Proyectos, ["proyecto".toList, "project".toList, "site".toList])]

/-- `detect_dataset_type`: the first category one of whose keywords is a
substring of the lowercased filename, else `None`. -/
def detect_dataset_type (filename : String) : Option DType :=
  (detection_rules.find? (fun r => r.2.any
    (fun kw => containsSub (filename.toList.map lowerA) kw))).map (fun r => r.1)

/-- The session dataset mapping. -/
abbrev Datasets := List (DType × Option Df)

/-- The per-file branch of the upload handler (src/app.py 78-90): a
recognized file replaces its category's dataset; an unrecognized one only
produces a warning and leaves the mapping untouched. -/
def processFile (datasets : Datasets) (filename : String) (df : Df) : Datasets :=
  match detect_dataset_type filename with
  | some t => datasets.map (fun p => if p.1 = t then (t, some df) else p)
  | none => datasets

/-!
## The provisioning drill-down (src/modules/provision.py)
-/

/-- `st.session_state.provision_drill_state` (the `current_level` entry is
written once at initialisation and never read; the four selections are
the live state). -/
structure DrillState where
  selected_departamento : Option String
  selected_provincia : Option String
  selected_distrito : Option String
  selected_localidad : Option String
deriving DecidableEq, Repr

/-- `reset_lower_levels(from_level)` (provision.py 110-116). -/
def reset_lower_levels (st : DrillState) (from_level : Nat) : DrillState :=
  let st1 := if from_level ≤ 1 then { st with selected_provincia := none } else st
  let st2 := if from_level ≤ 2 then { st1 with selected_distrito := none } else st1
  if from_level ≤ 3 then { st2 with selected_localidad := none } else st2

/-- The Departamento select-box handler (provision.py 156-159): guarded
twice — the placeholder does nothing, and re-selecting the stored value
does nothing. -/
def selectDepartamento (st : DrillState) (sel : String) : DrillState :=
  if sel ≠ "Seleccionar..." then
    if st.selected_departamento ≠ some sel then
      reset_lower_levels { st with selected_departamento := some sel } 1
    else st
  else st

/-- The Provincia select-box handler (provision.py 209-212). -/
def selectProvincia (st : DrillState) (sel : String) : DrillState :=
  if sel ≠ "Seleccionar..." then
    if st.selected_provincia ≠ some sel then
      reset_lower_levels { st with selected_provincia := some sel } 2
    else st
  else st

/-- The Distrito select-box handler (provision.py 275-278). -/
def selectDistrito (st : DrillState) (sel : String) : DrillState :=
  if sel ≠ "Seleccionar..." then
    if st.selected_distrito ≠ some sel then
      reset_lower_levels { st with selected_distrito := some sel } 3
    else st
  else st

/-- A dataframe is rectangular with `r` rows. -/
abbrev rectangular (df : Df) (r : Nat) : Prop := ∀ p ∈ df, p.2.length = r

/-!
## Character and digit facts
-/

theorem digit_facts : ∀ d, d < 10 → (digitChar0 d).isDigit = true ∧
    digitVal (digitChar0 d) = d ∧ isSpaceChar (digitChar0 d) = false ∧
    digitChar0 d ≠ '-' ∧ digitChar0 d ≠ '+' ∧ digitChar0 d ≠ '.' ∧
    digitChar0 d ≠ ',' ∧ digitChar0 d ≠ Char.ofNat 34 ∧
    lowerA (digitChar0 d) = digitChar0 d := by decide

theorem isDigitChar_facts {c : Char} (h : IsDigitChar c) : c.isDigit = true ∧
    isSpaceChar c = false ∧ c ≠ '-' ∧ c ≠ '+' ∧ c ≠ '.' ∧ c ≠ ',' ∧
    c ≠ Char.ofNat 34 := by
  obtain ⟨d, hd, rfl⟩ := h
  have := digit_facts d hd
  exact ⟨this.1, this.2.2.1, this.2.2.2.1, this.2.2.2.2.1, this.2.2.2.2.2.1,
    this.2.2.2.2.2.2.1, this.2.2.2.2.2.2.2.1⟩

/-!
## Trimming
-/

theorem dropWhile_eq_self {p : Char → Bool} {l : Str}
    (h : ∀ c ∈ l, p c = false) : List.dropWhile p l = l := by
  cases l with
  | nil => rfl
  | cons c t => simp [List.dropWhile_cons, h c (by simp)]

theorem trim_eq_self {l : Str} (h : ∀ c ∈ l, isSpaceChar c = false) :
    trimChars l = l := by
  have h1 : trimL l.reverse = l.reverse :=
    dropWhile_eq_self (fun c hc => h c (List.mem_reverse.mp hc))
  rw [trimChars, h1, List.reverse_reverse, trimL]
  exact dropWhile_eq_self h

theorem dropWhile_append_last {p : Char → Bool} {c : Char} (hc : p c = false) :
    ∀ l : Str, ∃ w, List.dropWhile p (l ++ [c]) = w ++ [c] := by
  intro l
  induction l with
  | nil => exact ⟨[], by simp [List.dropWhile_cons, hc]⟩
  | cons a t ih =>
    by_cases ha : p a = true
    · simpa [List.dropWhile_cons, ha] using ih
    · exact ⟨a :: t, by simp [List.dropWhile_cons, Bool.eq_false_iff.mpr ha]⟩

theorem trim_cons {c : Char} (hc : isSpaceChar c = false) (t : Str) :
    ∃ w, trimChars (c :: t) = c :: w := by
  unfold trimChars
  obtain ⟨w, hw⟩ := dropWhile_append_last hc t.reverse
  rw [show (c :: t).reverse = t.reverse ++ [c] by simp]
  rw [show trimL (t.reverse ++ [c]) = w ++ [c] from hw]
  simp only [List.reverse_append, List.reverse_cons, List.reverse_nil,
    List.nil_append, List.singleton_append]
  exact ⟨w.reverse, by simp [trimL, List.dropWhile_cons, hc]⟩

/-!
## `splitOnChar`
-/

theorem splitOnChar_ne_nil (sep : Char) : ∀ l : Str, splitOnChar sep l ≠ [] := by
  intro l
  cases l with
  | nil => simp [splitOnChar]
  | cons c t =>
    by_cases h : c = sep
    · simp [splitOnChar, h]
    · cases hs : splitOnChar sep t <;> simp [splitOnChar, h, hs]

theorem splitOnChar_not_mem {sep : Char} : ∀ {l : Str}, sep ∉ l →
    splitOnChar sep l = [l] := by
  intro l
  induction l with
  | nil => intro _; rfl
  | cons c t ih =>
    intro h
    have hc : ¬c = sep := fun he => h (by simp [he])
    have ht : sep ∉ t := fun hm => h (by simp [hm])
    simp [splitOnChar, hc, ih ht]

theorem splitOnChar_append {sep : Char} {a : Str} (ha : sep ∉ a) (b : Str) :
    splitOnChar sep (a ++ sep :: b) = a :: splitOnChar sep b := by
  induction a with
  | nil => simp [splitOnChar]
  | cons c t ih =>
    have hc : ¬c = sep := fun he => ha (by simp [he])
    have ht : sep ∉ t := fun hm => ha (by simp [hm])
    have h2 := ih ht
    have h3 : splitOnChar sep ((c :: t) ++ sep :: b) =
        match splitOnChar sep (t ++ sep :: b) with
        | [] => [[c]]
        | g :: gs => (c :: g) :: gs := by
      simp [splitOnChar, hc]
    rw [h3, h2]

/-!
## Decimal digit strings
-/

theorem parseBE_append_digit (l : Str) (c : Char) :
    parseBE (l ++ [c]) = 10 * parseBE l + digitVal c := by
  unfold parseBE
  rw [List.foldl_append]
  rfl

theorem natLEF_digits : ∀ f n, ∀ c ∈ natLEF f n, IsDigitChar c := by
  intro f
  induction f with
  | zero => intro n c hc; cases n <;> simp [natLEF] at hc
  | succ f ih =>
    intro n c hc
    cases n with
    | zero => simp [natLEF] at hc
    | succ m =>
      simp only [natLEF, List.mem_cons] at hc
      rcases hc with rfl | hc
      · exact ⟨(m + 1) % 10, Nat.mod_lt _ (by omega), rfl⟩
      · exact ih _ c hc

theorem natLEF_sound : ∀ f n, n ≤ f → parseBE (natLEF f n).reverse = n := by
  intro f
  induction f with
  | zero => intro n h; interval_cases n; rfl
  | succ f ih =>
    intro n h
    cases n with
    | zero => rfl
    | succ m =>
      have hdiv : (m + 1) / 10 ≤ f := by
        have := Nat.div_lt_self (Nat.succ_pos m) (by omega : 1 < 10)
        omega
      simp only [natLEF, List.reverse_cons]
      rw [parseBE_append_digit, ih _ hdiv, (digit_facts _ (Nat.mod_lt _ (by omega))).2.1]
      omega

theorem natBE_digits {n : Nat} : ∀ c ∈ natBE n, IsDigitChar c := by
  intro c hc
  exact natLEF_digits n n c (List.mem_reverse.mp hc)

theorem parseBE_natBE (n : Nat) : parseBE (natBE n) = n := natLEF_sound n n le_rfl

theorem parseBE_padZeros (k : Nat) (l : Str) : parseBE (padZeros k l) = parseBE l := by
  unfold padZeros
  generalize k - l.length = j
  induction j with
  | zero => rfl
  | succ i ih =>
    simp only [List.replicate_succ, List.cons_append]
    unfold parseBE at *
    simpa [digitChar0, digitVal] using ih

theorem padZeros_length (k : Nat) (l : Str) : (padZeros k l).length = max k l.length := by
  simp [padZeros]
  omega

theorem padZeros_digits {l : Str} (h : ∀ c ∈ l, IsDigitChar c) (k : Nat) :
    ∀ c ∈ padZeros k l, IsDigitChar c := by
  intro c hc
  rcases List.mem_append.mp hc with hr | hl
  · exact ⟨0, by omega, (List.eq_of_mem_replicate hr)⟩
  · exact h c hl

theorem natPad_digits (k n : Nat) : ∀ c ∈ natPad k n, IsDigitChar c :=
  padZeros_digits natBE_digits k

theorem parseBE_natPad (k n : Nat) : parseBE (natPad k n) = n := by
  rw [natPad, parseBE_padZeros, parseBE_natBE]

theorem natPad_length_ge (k n : Nat) : k ≤ (natPad k n).length := by
  rw [natPad, padZeros_length]
  omega

theorem head_shape_of_digits {l : Str} (h : ∀ c ∈ l, IsDigitChar c)
    (hne : l ≠ []) : ∃ c w, l = c :: w ∧ IsDigitChar c := by
  cases l with
  | nil => exact absurd rfl hne
  | cons c w => exact ⟨c, w, rfl, h c (by simp)⟩

theorem natPad_shape (k n : Nat) (hk : 0 < k) :
    ∃ c w, natPad k n = c :: w ∧ IsDigitChar c := by
  refine head_shape_of_digits (natPad_digits k n) ?_
  intro he
  have := natPad_length_ge k n
  rw [he] at this
  simp at this
  omega

/-!
## The `str(float)` / `to_numeric` round trip
-/

theorem allDigits_of {l : Str} (h : ∀ c ∈ l, IsDigitChar c) : allDigits l = true :=
  List.all_eq_true.mpr fun c hc => (isDigitChar_facts (h c hc)).1

theorem dot_not_mem {l : Str} (h : ∀ c ∈ l, IsDigitChar c) : '.' ∉ l :=
  fun hm => (isDigitChar_facts (h _ hm)).2.2.2.2.1 rfl

theorem reprDecNonneg_chars (n e : Nat) :
    ∀ c ∈ reprDecNonneg n e, IsDigitChar c ∨ c = '.' := by
  intro c hc
  by_cases he : e = 0
  · subst he
    exact Or.inl (natPad_digits 1 n c (by simpa [reprDecNonneg] using hc))
  · simp only [reprDecNonneg, if_neg he] at hc
    rcases List.mem_append.mp hc with h1 | h1
    · exact Or.inl (natPad_digits _ n c (List.take_subset _ _ h1))
    · rcases List.mem_cons.mp h1 with rfl | h2
      · exact Or.inr rfl
      · exact Or.inl (natPad_digits _ n c (List.drop_subset _ _ h2))

theorem reprDecNonneg_ne_nil (n e : Nat) : reprDecNonneg n e ≠ [] := by
  by_cases he : e = 0
  · subst he
    intro h
    have := natPad_length_ge 1 n
    rw [show natPad 1 n = [] by simpa [reprDecNonneg] using h] at this
    simp at this
  · simp [reprDecNonneg, if_neg he]

theorem reprDecNonneg_shape (n e : Nat) :
    ∃ c w, reprDecNonneg n e = c :: w ∧ (IsDigitChar c ∨ c = '.') := by
  cases hsh : reprDecNonneg n e with
  | nil => exact absurd hsh (reprDecNonneg_ne_nil n e)
  | cons c w =>
    exact ⟨c, w, rfl, reprDecNonneg_chars n e c (by rw [hsh]; simp)⟩

theorem parseFloatCore_reprDecNonneg (n e : Nat) (neg : Bool) :
    parseFloatCore neg (reprDecNonneg n e) =
      some (if neg then -(n : Int) else (n : Int), e) := by
  by_cases he : e = 0
  · subst he
    have hds : ∀ c ∈ natPad 1 n, IsDigitChar c := natPad_digits 1 n
    have hne : natPad 1 n ≠ [] := by
      intro h
      have := natPad_length_ge 1 n
      rw [h] at this
      simp at this
    rw [show reprDecNonneg n 0 = natPad 1 n by simp [reprDecNonneg]]
    unfold parseFloatCore
    rw [splitOnChar_not_mem (dot_not_mem hds)]
    simp [hne, allDigits_of hds, parseBE_natPad]
  · have hL : e + 1 ≤ (natPad (e + 1) n).length := natPad_length_ge (e + 1) n
    set ds := natPad (e + 1) n with hds_def
    set A := ds.take (ds.length - e) with hA_def
    set B := ds.drop (ds.length - e) with hB_def
    have hA : ∀ c ∈ A, IsDigitChar c :=
      fun c hc => natPad_digits _ n c (List.take_subset _ _ hc)
    have hB : ∀ c ∈ B, IsDigitChar c :=
      fun c hc => natPad_digits _ n c (List.drop_subset _ _ hc)
    have hbody : reprDecNonneg n e = A ++ '.' :: B := by
      simp [reprDecNonneg, if_neg he]
    have hsplit : splitOnChar '.' (A ++ '.' :: B) = [A, B] := by
      rw [splitOnChar_append (dot_not_mem hA), splitOnChar_not_mem (dot_not_mem hB)]
    have hlenA : A.length = ds.length - e := by
      rw [hA_def, List.length_take]
      omega
    have hAne : A ≠ [] := by
      intro h
      rw [h] at hlenA
      simp at hlenA
      omega
    have hlenB : B.length = e := by
      rw [hB_def, List.length_drop]
      omega
    have hAB : A ++ B = ds := List.take_append_drop _ _
    have hval : parseBE (A ++ B) = n := by
      rw [hAB, hds_def, parseBE_natPad]
    rw [hbody]
    unfold parseFloatCore
    rw [hsplit]
    simp [hAne, allDigits_of hA, allDigits_of hB, hval, hlenB]

theorem parseFloatCore_reprDecNonneg_true (n e : Nat) :
    parseFloatCore true (reprDecNonneg n e) = some (-(n : Int), e) := by
  rw [parseFloatCore_reprDecNonneg]
  simp

theorem parseFloatCore_reprDecNonneg_false (n e : Nat) :
    parseFloatCore false (reprDecNonneg n e) = some ((n : Int), e) := by
  rw [parseFloatCore_reprDecNonneg]
  simp

theorem reprDec_no_space (m : Int) (e : Nat) :
    ∀ c ∈ reprDec m e, isSpaceChar c = false := by
  intro c hc
  rcases List.mem_append.mp hc with h1 | h1
  · rcases List.mem_ite_nil_right.mp h1 with ⟨_, h2⟩
    simp only [List.mem_singleton] at h2
    subst h2
    decide
  · rcases reprDecNonneg_chars m.natAbs e c h1 with hd | rfl
    · exact (isDigitChar_facts hd).2.1
    · decide

theorem parseFloat_reprDec (m : Int) (e : Nat) :
    parseFloat (reprDec m e) = some (m, e) := by
  unfold parseFloat
  rw [trim_eq_self (reprDec_no_space m e)]
  by_cases hm : m < 0
  · rw [show reprDec m e = '-' :: reprDecNonneg m.natAbs e by
      simp [reprDec, if_pos hm]]
    rw [show stripSign ('-' :: reprDecNonneg m.natAbs e) =
      (true, reprDecNonneg m.natAbs e) by simp [stripSign]]
    rw [parseFloatCore_reprDecNonneg_true, show -((m.natAbs : Int)) = m by omega]
  · obtain ⟨c, w, hw, hc⟩ := reprDecNonneg_shape m.natAbs e
    have hne : c ≠ '-' ∧ c ≠ '+' := by
      rcases hc with hd | rfl
      · exact ⟨(isDigitChar_facts hd).2.2.1, (isDigitChar_facts hd).2.2.2.1⟩
      · exact ⟨by decide, by decide⟩
    rw [show reprDec m e = reprDecNonneg m.natAbs e by simp [reprDec, if_neg hm]]
    rw [hw]
    rw [show stripSign (c :: w) = (false, c :: w) by
      simp [stripSign, hne.1, hne.2]]
    rw [← hw, parseFloatCore_reprDecNonneg_false, show ((m.natAbs : Int)) = m by omega]

/-!
## Stability of cleaned numeric cells
-/

theorem contains_eq_false_of {l : Str} {x : Char} (h : ∀ c ∈ l, c ≠ x) :
    l.contains x = false := by
  rw [Bool.eq_false_iff]
  intro hx
  exact h x (List.mem_of_elem_eq_true hx) rfl

theorem reprDecNonneg_has_digit (n e : Nat) :
    ∃ c ∈ reprDecNonneg n e, IsDigitChar c := by
  by_cases he : e = 0
  · subst he
    obtain ⟨c, w, hw, hc⟩ := natPad_shape 1 n (by omega)
    exact ⟨c, by simp [reprDecNonneg, hw], hc⟩
  · have hL := natPad_length_ge (e + 1) n
    obtain ⟨c, w, hw, hc⟩ := natPad_shape (e + 1) n (by omega)
    refine ⟨c, ?_, hc⟩
    simp only [reprDecNonneg, if_neg he]
    refine List.mem_append.mpr (Or.inl ?_)
    cases hk : (natPad (e + 1) n).length - e with
    | zero => omega
    | succ j =>
      rw [hw, List.take_succ_cons]
      simp

theorem reprDec_chars (m : Int) (e : Nat) :
    ∀ c ∈ reprDec m e, c = '-' ∨ IsDigitChar c ∨ c = '.' := by
  intro c hc
  rcases List.mem_append.mp hc with h1 | h1
  · rcases List.mem_ite_nil_right.mp h1 with ⟨_, h2⟩
    simp only [List.mem_singleton] at h2
    exact Or.inl h2
  · exact Or.inr (reprDecNonneg_chars m.natAbs e c h1)

theorem clean_european_number_cnum (m : Int) (e : Nat) :
    clean_european_number (Cell.cnum m e) = some (reprDec m e) := by
  have hchars := reprDec_chars m e
  have hq : (trimChars (reprDec m e)).filter (fun c => c ≠ Char.ofNat 34) =
      reprDec m e := by
    rw [trim_eq_self (reprDec_no_space m e)]
    rw [List.filter_eq_self]
    intro c hc
    rcases hchars c hc with rfl | hd | rfl
    · decide
    · simpa using (isDigitChar_facts hd).2.2.2.2.2.2
    · decide
  have hdig : (reprDec m e).any Char.isDigit = true := by
    obtain ⟨c, hcm, hc⟩ := reprDecNonneg_has_digit m.natAbs e
    refine List.any_eq_true.mpr ⟨c, ?_, (isDigitChar_facts hc).1⟩
    exact List.mem_append.mpr (Or.inr hcm)
  have hcomma : ',' ∉ reprDec m e := by
    intro hc
    rcases hchars ',' hc with h2 | hd | h2
    · exact absurd h2 (by decide)
    · exact (isDigitChar_facts hd).2.2.2.2.2.1 rfl
    · exact absurd h2 (by decide)
  rw [show clean_european_number (Cell.cnum m e) =
    cleanEuropeanStr (reprDec m e) by simp [clean_european_number, pythonStrCell]]
  unfold cleanEuropeanStr
  rw [hq]
  simp [hdig, hcomma]

theorem cleanNumCell_na : cleanNumCell Cell.na = Cell.na := by
  simp [cleanNumCell, clean_european_number]

theorem cleanNumCell_eq (c : Cell) : cleanNumCell c =
    (match (clean_european_number c).bind parseFloat with
     | none => Cell.na
     | some p => Cell.cnum p.1 p.2) := by
  unfold cleanNumCell
  cases clean_european_number c <;> rfl

theorem cleanNumCell_cnum (m : Int) (e : Nat) :
    cleanNumCell (Cell.cnum m e) = Cell.cnum m e := by
  rw [cleanNumCell_eq, clean_european_number_cnum]
  simp [parseFloat_reprDec]

theorem cleanNumCell_range (c : Cell) :
    cleanNumCell c = Cell.na ∨ ∃ m e, cleanNumCell c = Cell.cnum m e := by
  rw [cleanNumCell_eq]
  rcases (clean_european_number c).bind parseFloat with _ | p
  · exact Or.inl rfl
  · exact Or.inr ⟨p.1, p.2, rfl⟩

theorem cleanNumCell_idem (c : Cell) :
    cleanNumCell (cleanNumCell c) = cleanNumCell c := by
  rcases cleanNumCell_range c with h | ⟨m, e, h⟩ <;> rw [h]
  · exact cleanNumCell_na
  · exact cleanNumCell_cnum m e

theorem cleanEuropeanStr_eq_policy (s : Str) : cleanEuropeanStr s = cleanPolicySpec s := by
  unfold cleanEuropeanStr cleanPolicySpec
  set t := (trimChars s).filter (fun c => c ≠ Char.ofNat 34) with ht
  by_cases h1 : t.any Char.isDigit = false
  · simp [h1]
  · by_cases hc : ',' ∈ t
    · by_cases hd : '.' ∈ t
      · simp [h1, hc, hd]
      · by_cases hp2 : (splitOnChar ',' t).length = 2
        · simp only [h1, hc, hd, hp2]
          simp [h1, hc, hd, hp2]
          split_ifs with ha hb
          · rfl
          · omega
          · omega
          · rfl
        · simp [h1, hc, hd, hp2]
    · simp [h1, hc]

/-!
## Dataframe column operations
-/

theorem find?_map_setter (n : String) (v : List Cell) (m : String) (hnm : n ≠ m) :
    ∀ df : Df, (df.map (fun p => if p.1 == n then (n, v) else p)).find?
      (fun p => p.1 == m) = df.find? (fun p => p.1 == m) := by
  intro df
  have h2 : (n == m) = false := by simpa using hnm
  induction df with
  | nil => rfl
  | cons p t ih =>
    by_cases hp : (p.1 == n) = true
    · have hp1 : p.1 = n := by simpa using hp
      have hq : (p.1 == m) = false := by rw [hp1]; exact h2
      simp only [List.map_cons, if_pos hp, List.find?_cons, h2, hq]
      exact ih
    · simp only [List.map_cons, if_neg hp, List.find?_cons]
      cases hq : (p.1 == m)
      · simp only [hq]
        exact ih
      · simp only [hq]

theorem getCol_setCol_ne {m n : String} (df : Df) (v : List Cell) (h : m ≠ n) :
    getCol (setCol df n v) m = getCol df m := by
  unfold getCol setCol
  by_cases hp : df.any (fun p => p.1 == n) = true
  · rw [if_pos hp, find?_map_setter n v m (Ne.symm h)]
  · rw [if_neg hp, List.find?_append]
    have h1 : List.find? (fun p => p.1 == m) [(n, v)] = none := by
      simp [Ne.symm h]
    rw [h1]
    cases List.find? (fun p => p.1 == m) df <;> rfl

theorem getCol_setCol_self (df : Df) (n : String) (v : List Cell) :
    getCol (setCol df n v) n = some v := by
  unfold getCol setCol
  by_cases hp : df.any (fun p => p.1 == n) = true
  · rw [if_pos hp]
    obtain ⟨q, hq, hq2⟩ := List.any_eq_true.mp hp
    clear hp
    induction df with
    | nil => simp at hq
    | cons p t ih =>
      by_cases hp1 : (p.1 == n) = true
      · rw [List.map_cons, if_pos hp1]
        simp [List.find?_cons]
      · rcases List.mem_cons.mp hq with rfl | hqt
        · exact absurd hq2 hp1
        · have hp2 : (p.1 == n) = false := by simpa using hp1
          rw [List.map_cons, if_neg hp1]
          simp only [List.find?_cons, hp2]
          exact ih hqt
  · rw [if_neg hp, List.find?_append]
    have h1 : List.find? (fun p => p.1 == n) df = none := by
      rw [List.find?_eq_none]
      intro q hq hq2
      exact hp (List.any_eq_true.mpr ⟨q, hq, hq2⟩)
    rw [h1]
    simp

theorem getCol_dropCol_ne {m n : String} (df : Df) (h : m ≠ n) :
    getCol (dropCol df n) m = getCol df m := by
  unfold getCol dropCol
  induction df with
  | nil => rfl
  | cons p t ih =>
    by_cases hp : (p.1 != n) = true
    · simp only [List.filter_cons, if_pos hp, List.find?_cons]
      cases hq : (p.1 == m)
      · simp only [hq]
        exact ih
      · simp only [hq]
    · have hp1 : p.1 = n := by simpa using hp
      have hq : (p.1 == m) = false := by
        rw [hp1]
        simpa using Ne.symm h
      simp only [List.filter_cons, if_neg hp, List.find?_cons, hq]
      exact ih

theorem getCol_dropCol_self (df : Df) (n : String) :
    getCol (dropCol df n) n = none := by
  unfold getCol dropCol
  rw [show (List.find? (fun p => p.1 == n) (List.filter (fun p => p.1 != n) df)) =
    none from List.find?_eq_none.mpr ?_]
  · rfl
  · intro q hq
    have := List.of_mem_filter hq
    simp_all

theorem setCol_absent {df : Df} {n : String} (h : getCol df n = none)
    (v : List Cell) : setCol df n v = df ++ [(n, v)] := by
  have hf : df.find? (fun p => p.1 == n) = none := by
    cases hfind : df.find? (fun p => p.1 == n) with
    | none => rfl
    | some q => rw [getCol, hfind] at h; simp at h
  unfold setCol
  rw [if_neg]
  intro hp
  obtain ⟨q, hq, hq2⟩ := List.any_eq_true.mp hp
  rw [List.find?_eq_none] at hf
  exact absurd hq2 (by simpa using hf q hq)

theorem getCol_mapCol_ne {m n : String} (df : Df) (f : Cell → Cell) (h : m ≠ n) :
    getCol (mapCol df n f) m = getCol df m := by
  unfold getCol mapCol
  induction df with
  | nil => rfl
  | cons p t ih =>
    by_cases hp : (p.1 == n) = true
    · have hp1 : p.1 = n := by simpa using hp
      have hq : (p.1 == m) = false := by
        rw [hp1]
        simpa using Ne.symm h
      rw [List.map_cons, if_pos hp]
      simp only [List.find?_cons, hq]
      exact ih
    · rw [List.map_cons, if_neg hp]
      simp only [List.find?_cons]
      cases hq : (p.1 == m)
      · simp only [hq]
        exact ih
      · simp only [hq]

theorem getCol_mapCol_self (df : Df) (n : String) (f : Cell → Cell) :
    getCol (mapCol df n f) n = (getCol df n).map (List.map f) := by
  unfold getCol mapCol
  induction df with
  | nil => rfl
  | cons p t ih =>
    by_cases hp : (p.1 == n) = true
    · rw [List.map_cons, if_pos hp]
      simp only [List.find?_cons, hp]
      rfl
    · rw [List.map_cons, if_neg hp]
      have hp2 : (p.1 == n) = false := by simpa using hp
      simp only [List.find?_cons, hp2]
      exact ih

theorem getCol_durationStep_ne {m : String} (df : Df) (h : m ≠ "duration_minutes") :
    getCol (durationStep df) m = getCol df m := by
  unfold durationStep
  cases durFire df with
  | none => rfl
  | some v => exact getCol_setCol_ne df v h

theorem durFire_congr {X Y : Df} (hs : getCol X "start_time" = getCol Y "start_time")
    (he : getCol X "end_time" = getCol Y "end_time") : durFire X = durFire Y := by
  unfold durFire
  rw [hs, he]

theorem getCol_mem {df : Df} {n : String} {c : List Cell} (h : getCol df n = some c) :
    ∃ p ∈ df, p.2 = c := by
  unfold getCol at h
  cases hf : df.find? (fun p => p.1 == n) with
  | none => rw [hf] at h; simp at h
  | some q =>
    rw [hf] at h
    simp only [Option.map_some', Option.some.injEq] at h
    exact ⟨q, List.mem_of_find?_eq_some hf, h⟩

theorem rectangular_getCol {df : Df} {r : Nat} {n : String} {c : List Cell}
    (h : rectangular df r) (hg : getCol df n = some c) : c.length = r := by
  obtain ⟨p, hp, hp2⟩ := getCol_mem hg
  rw [← hp2]
  exact h p hp

theorem rectangular_setCol {df : Df} {r : Nat} {v : List Cell} (h : rectangular df r)
    (hv : v.length = r) (n : String) : rectangular (setCol df n v) r := by
  intro p hp
  unfold setCol at hp
  by_cases ha : df.any (fun q => q.1 == n) = true
  · rw [if_pos ha] at hp
    obtain ⟨q, hq, hq2⟩ := List.mem_map.mp hp
    by_cases h3 : (q.1 == n) = true
    · rw [if_pos h3] at hq2
      rw [← hq2]
      exact hv
    · rw [if_neg h3] at hq2
      rw [← hq2]
      exact h q hq
  · rw [if_neg ha] at hp
    rcases List.mem_append.mp hp with h1 | h1
    · exact h p h1
    · simp only [List.mem_singleton] at h1
      rw [h1]
      exact hv

theorem rectangular_dropCol {df : Df} {r : Nat} (h : rectangular df r) (n : String) :
    rectangular (dropCol df n) r := by
  intro p hp
  exact h p (List.mem_of_mem_filter hp)

theorem rectangular_mapCol {df : Df} {r : Nat} (h : rectangular df r) (n : String)
    (f : Cell → Cell) : rectangular (mapCol df n f) r := by
  intro p hp
  obtain ⟨q, hq, hq2⟩ := List.mem_map.mp hp
  by_cases h3 : (q.1 == n) = true
  · rw [if_pos h3] at hq2
    rw [← hq2]
    simpa using h q hq
  · rw [if_neg h3] at hq2
    rw [← hq2]
    exact h q hq

/-!
## Column-name facts
-/

theorem clean_length : ("_clean" : String).length = 6 := rfl

theorem ne_clean_self (cn : String) : cn ≠ cn ++ "_clean" := by
  intro h
  have h1 := congrArg String.length h
  rw [String.length_append, clean_length] at h1
  omega

theorem append_clean_ne {t : String} (ht : ∀ l : List Char, l ++ "_clean".data ≠ t.data) :
    ∀ cn : String, cn ++ "_clean" ≠ t := by
  intro cn h
  refine ht cn.data ?_
  rw [← h]
  rfl

theorem no_clean_hour : ∀ cn : String, cn ++ "_clean" ≠ "hour" := by
  refine append_clean_ne ?_
  intro l h
  have h1 := congrArg List.length h
  simp at h1

theorem no_clean_date : ∀ cn : String, cn ++ "_clean" ≠ "date" := by
  refine append_clean_ne ?_
  intro l h
  have h1 := congrArg List.length h
  simp at h1

theorem no_clean_month : ∀ cn : String, cn ++ "_clean" ≠ "month" := by
  refine append_clean_ne ?_
  intro l h
  have h1 := congrArg List.length h
  simp at h1

theorem no_clean_year : ∀ cn : String, cn ++ "_clean" ≠ "year" := by
  refine append_clean_ne ?_
  intro l h
  have h1 := congrArg List.length h
  simp at h1

theorem no_clean_dow : ∀ cn : String, cn ++ "_clean" ≠ "day_of_week" := by
  refine append_clean_ne ?_
  intro l h
  have h1 := congrArg List.length h
  simp at h1
  have h2 := congrArg (List.drop l.length) h
  rw [List.drop_left, show l.length = 5 by omega] at h2
  exact absurd h2 (by decide)

theorem no_clean_dur : ∀ cn : String, cn ++ "_clean" ≠ "duration_minutes" := by
  refine append_clean_ne ?_
  intro l h
  have h1 := congrArg List.length h
  simp at h1
  have h2 := congrArg (List.drop l.length) h
  rw [List.drop_left, show l.length = 10 by omega] at h2
  exact absurd h2 (by decide)

theorem no_clean_start : ∀ cn : String, cn ++ "_clean" ≠ "start_time" := by
  refine append_clean_ne ?_
  intro l h
  have h1 := congrArg List.length h
  simp at h1
  have h2 := congrArg (List.drop l.length) h
  rw [List.drop_left, show l.length = 4 by omega] at h2
  exact absurd h2 (by decide)

theorem no_clean_end : ∀ cn : String, cn ++ "_clean" ≠ "end_time" := by
  refine append_clean_ne ?_
  intro l h
  have h1 := congrArg List.length h
  simp at h1
  have h2 := congrArg (List.drop l.length) h
  rw [List.drop_left, show l.length = 2 by omega] at h2
  exact absurd h2 (by decide)

/-!
## Inert cells: what a second `parse_datetime_column` run sees
-/

theorem headSafe_dash : HeadSafe '-' := by decide

theorem headSafe_digit : ∀ d, d < 10 → HeadSafe (digitChar0 d) := by decide

theorem headSafe_of_digitChar {c : Char} (h : IsDigitChar c) : HeadSafe c := by
  obtain ⟨d, hd, rfl⟩ := h
  exact headSafe_digit d hd

theorem parseMonth_none {c : Char} (cs : Str) (h : HeadSafe c) :
    parseMonth (c :: cs) = none := by
  obtain ⟨_, _, _, h4, h5, h6, h7, h8, h9, h10, h11⟩ := h
  simp [parseMonth, monthTable, stripAbbrev, h4, h5, h6, h7, h8, h9, h10, h11]

theorem parseTS_none_of_headSafe {c : Char} (cs : Str) (h : HeadSafe c) :
    parseTS (c :: cs) = none := by
  unfold parseTS
  rw [parseMonth_none cs h]
  rfl

theorem isPrefixOf_cons_false {a : Char} {as : Str} {c : Char} (cs : Str) (h : a ≠ c) :
    (a :: as).isPrefixOf (c :: cs) = false := by
  simp [List.isPrefixOf, h]

theorem replaceSub_cons {a : Char} (pat rep : Str) {c : Char} (cs : Str) (h : a ≠ c) :
    replaceSub (a :: pat) rep (c :: cs) = c :: replAux (a :: pat) rep 0 cs := by
  unfold replaceSub
  rw [if_neg (by simp : ¬(a :: pat = []))]
  show replAux (a :: pat) rep 0 (c :: cs) = _
  simp only [replAux, isPrefixOf_cons_false cs h]
  simp

theorem clean_date_format_shape {cell : Cell} {c : Char} {s0 : Str}
    (hcell : cell ≠ Cell.na) (hstr : pythonStrCell cell = c :: s0)
    (hs : HeadSafe c) : ∃ w, clean_date_format cell = some (c :: w) := by
  obtain ⟨h1, h2, h3, _, _, _, _, _, _, h10, _⟩ := hs
  unfold clean_date_format
  rw [if_neg hcell, hstr]
  rw [if_neg (by simp : ¬(c :: s0 = []))]
  have hnan : ¬((c :: s0).map lowerA = "nan".toList) := by
    intro hmap
    rw [show "nan".toList = 'n' :: 'a' :: 'n' :: [] from rfl] at hmap
    rw [List.map_cons] at hmap
    exact h10 (List.cons.inj hmap).1
  rw [if_neg hnan]
  rw [show " @ ".toList = ' ' :: '@' :: ' ' :: [] from rfl]
  rw [replaceSub_cons _ _ s0 (Ne.symm h2)]
  rw [show ".000".toList = '.' :: '0' :: '0' :: '0' :: [] from rfl]
  rw [replaceSub_cons _ _ _ (Ne.symm h3)]
  obtain ⟨w, hw⟩ := trim_cons h1 (replAux ('.' :: '0' :: '0' :: '0' :: []) []
    0 (replAux (' ' :: '@' :: ' ' :: []) [' '] 0 s0))
  rw [hw]
  exact ⟨w, rfl⟩

theorem dtInert_of_shape {cell : Cell} {c : Char} {s0 : Str}
    (hcell : cell ≠ Cell.na) (hstr : pythonStrCell cell = c :: s0)
    (hs : HeadSafe c) : DTInert cell := by
  obtain ⟨w, hw⟩ := clean_date_format_shape hcell hstr hs
  unfold DTInert
  rw [hw]
  simpa using parseTS_none_of_headSafe w hs

theorem dtInert_na : DTInert Cell.na := by
  unfold DTInert clean_date_format
  simp

theorem strTS_shape (t : Timestamp) : ∃ c s0, strTS t = c :: s0 ∧ IsDigitChar c := by
  obtain ⟨c, w, hw, hc⟩ := natPad_shape 4 t.year (by omega)
  refine ⟨c, w ++ '-' :: natPad 2 t.month ++ '-' :: natPad 2 t.day ++
    ' ' :: natPad 2 t.hour ++ ':' :: natPad 2 t.minute ++ ':' :: natPad 2 t.second, ?_, hc⟩
  unfold strTS
  rw [hw]
  rfl

theorem dtInert_cts (t : Timestamp) : DTInert (Cell.cts t) := by
  obtain ⟨c, s0, hw, hc⟩ := strTS_shape t
  exact dtInert_of_shape (by simp) (by simpa [pythonStrCell] using hw)
    (headSafe_of_digitChar hc)

theorem dtInert_cdate (y mo d : Nat) : DTInert (Cell.cdate y mo d) := by
  obtain ⟨c, w, hw, hc⟩ := natPad_shape 4 y (by omega)
  have hstr : pythonStrCell (Cell.cdate y mo d) =
      c :: (w ++ '-' :: natPad 2 mo ++ '-' :: natPad 2 d) := by
    show natPad 4 y ++ '-' :: natPad 2 mo ++ '-' :: natPad 2 d = _
    rw [hw]
    rfl
  exact dtInert_of_shape (by simp) hstr (headSafe_of_digitChar hc)

theorem head_take_append {l : Str} {c : Char} {w : Str} (hl : l = c :: w) (k : Nat)
    (hk : 0 < k) (rest : Str) : ∃ tail, l.take k ++ rest = c :: tail := by
  subst hl
  cases k with
  | zero => omega
  | succ j => exact ⟨List.take j w ++ rest, by simp⟩

theorem reprDecNonneg_head_digit (n e : Nat) :
    ∃ c s0, reprDecNonneg n e = c :: s0 ∧ IsDigitChar c := by
  by_cases he : e = 0
  · subst he
    simpa [reprDecNonneg] using natPad_shape 1 n (by omega)
  · have hL := natPad_length_ge (e + 1) n
    obtain ⟨c, w, hw, hc⟩ := natPad_shape (e + 1) n (by omega)
    have hdef : reprDecNonneg n e =
        (natPad (e + 1) n).take ((natPad (e + 1) n).length - e) ++
          '.' :: (natPad (e + 1) n).drop ((natPad (e + 1) n).length - e) := by
      simp [reprDecNonneg, if_neg he]
    obtain ⟨tail, htail⟩ := head_take_append hw ((natPad (e + 1) n).length - e)
      (by omega) ('.' :: (natPad (e + 1) n).drop ((natPad (e + 1) n).length - e))
    exact ⟨c, tail, by rw [hdef]; exact htail, hc⟩

theorem reprDec_shape (m : Int) (e : Nat) :
    ∃ c s0, reprDec m e = c :: s0 ∧ (c = '-' ∨ IsDigitChar c) := by
  obtain ⟨c, s0, hw, hc⟩ := reprDecNonneg_head_digit m.natAbs e
  by_cases hm : m < 0
  · exact ⟨'-', reprDecNonneg m.natAbs e, by simp [reprDec, if_pos hm], Or.inl rfl⟩
  · exact ⟨c, s0, by simp [reprDec, if_neg hm, hw], Or.inr hc⟩

theorem headSafe_of_shape {c : Char} (h : c = '-' ∨ IsDigitChar c) : HeadSafe c := by
  rcases h with rfl | hd
  · exact headSafe_dash
  · exact headSafe_of_digitChar hd

theorem dtInert_cnum (m : Int) (e : Nat) : DTInert (Cell.cnum m e) := by
  obtain ⟨c, s0, hw, hc⟩ := reprDec_shape m e
  exact dtInert_of_shape (by simp) (by simpa [pythonStrCell] using hw)
    (headSafe_of_shape hc)

theorem dtInert_cdur (sec : Int) : DTInert (Cell.cdur sec) := by
  obtain ⟨c, s0, hw, hc⟩ := reprDec_shape sec 0
  have hstr : pythonStrCell (Cell.cdur sec) = c :: (s0 ++ "/60min".toList) := by
    show reprDec sec 0 ++ "/60min".toList = _
    rw [hw]
    rfl
  exact dtInert_of_shape (by simp) hstr (headSafe_of_shape hc)

theorem dtInert_dayName (t : Timestamp) : DTInert (Cell.cstr (dayName t)) := by
  have hmem : dayName t ∈ dayNames ∨ dayName t = "Monday".toList := by
    unfold dayName
    rw [List.getD_eq_getElem?_getD]
    cases hg : dayNames[(((daysFromCivil t.year t.month t.day + 3) % 7).toNat)]? with
    | none => simp
    | some x => exact Or.inl (by simpa using List.getElem?_mem hg)
  have hcases : dayName t = "Monday".toList ∨ dayName t = "Tuesday".toList ∨
      dayName t = "Wednesday".toList ∨ dayName t = "Thursday".toList ∨
      dayName t = "Friday".toList ∨ dayName t = "Saturday".toList ∨
      dayName t = "Sunday".toList := by
    rcases hmem with hm | hm
    · simpa [dayNames] using hm
    · exact Or.inl hm
  rcases hcases with h | h | h | h | h | h | h <;> rw [h] <;> decide

theorem dtInert_optTsCell (o : Option Timestamp) : DTInert (optTsCell o) := by
  cases o with
  | none => exact dtInert_na
  | some t => exact dtInert_cts t

theorem dtInert_hourCell (o : Option Timestamp) : DTInert (hourCell o) := by
  cases o with
  | none => exact dtInert_na
  | some t => exact dtInert_cnum t.hour 0

theorem dtInert_dateCell (o : Option Timestamp) : DTInert (dateCell o) := by
  cases o with
  | none => exact dtInert_na
  | some t => exact dtInert_cdate t.year t.month t.day

theorem dtInert_dowCell (o : Option Timestamp) : DTInert (dowCell o) := by
  cases o with
  | none => exact dtInert_na
  | some t => exact dtInert_dayName t

theorem dtInert_monthCell (o : Option Timestamp) : DTInert (monthCell o) := by
  cases o with
  | none => exact dtInert_na
  | some t => exact dtInert_cnum t.month 0

theorem dtInert_yearCell (o : Option Timestamp) : DTInert (yearCell o) := by
  cases o with
  | none => exact dtInert_na
  | some t => exact dtInert_cnum t.year 0

theorem dtInert_durCell (a b : Cell) : DTInert (durCell a b) := by
  cases a <;> cases b <;> first
    | exact dtInert_na
    | exact dtInert_cdur _

theorem dtValid_eq_zero {col : List Cell} (h : ∀ c ∈ col, DTInert c) :
    dtValid col = 0 := by
  unfold dtValid dtSer dtClean
  rw [List.map_map, List.countP_eq_zero]
  intro o ho
  obtain ⟨c, hc, rfl⟩ := List.mem_map.mp ho
  have := h c hc
  unfold DTInert at this
  simp [Function.comp, this]

theorem all_inert_of_dtValid_zero {col : List Cell} (h : dtValid col = 0) :
    ∀ c ∈ col, DTInert c := by
  unfold dtValid dtSer dtClean at h
  rw [List.map_map, List.countP_eq_zero] at h
  intro c hc
  have := h _ (List.mem_map.mpr ⟨c, hc, rfl⟩)
  unfold DTInert
  simpa [Function.comp, Option.not_isSome_iff_eq_none] using this

theorem dropCol_setCol_absent {df : Df} {n : String} (h : getCol df n = none)
    (v : List Cell) : dropCol (setCol df n v) n = df := by
  rw [setCol_absent h v]
  unfold dropCol
  rw [List.filter_append]
  have h1 : List.filter (fun p => p.1 != n) [(n, v)] = [] := by simp
  rw [h1, List.append_nil, List.filter_eq_self]
  intro q hq
  cases hfind : df.find? (fun p => p.1 == n) with
  | none =>
    rw [List.find?_eq_none] at hfind
    simpa using hfind q hq
  | some q2 => rw [getCol, hfind] at h; simp at h

/-!
## The structure of `parse_datetime_column` runs
-/

theorem pdt_eq_none {df : Df} {cn : String} (h : getCol df cn = none) (b : Bool) :
    parse_datetime_column df cn b = (df, false) := by
  unfold parse_datetime_column
  rw [h]

theorem pdt_eq_some {df : Df} {cn : String} {col : List Cell}
    (h : getCol df cn = some col) (b : Bool) :
    parse_datetime_column df cn b =
      (durationStep (dropCol
        (if 0 < dtValid col then
          (if b then
            derivedStep (setCol (setCol df (cn ++ "_clean") ((dtClean col).map optStrCell))
              cn ((dtSer col).map optTsCell)) (dtSer col)
           else
            setCol (setCol df (cn ++ "_clean") ((dtClean col).map optStrCell))
              cn ((dtSer col).map optTsCell))
        else setCol df (cn ++ "_clean") ((dtClean col).map optStrCell))
        (cn ++ "_clean")), decide (0 < dtValid col)) := by
  unfold parse_datetime_column
  rw [h]

theorem pdt_flag {df : Df} {cn : String} {col : List Cell}
    (h : getCol df cn = some col) (b : Bool) :
    (parse_datetime_column df cn b).2 = decide (0 < dtValid col) := by
  rw [pdt_eq_some h b]

theorem pdt_eq_derived {df : Df} {cn : String} {col : List Cell}
    (h : getCol df cn = some col) (hv : 0 < dtValid col) :
    (parse_datetime_column df cn true).1 =
      durationStep (dropCol (derivedStep (setCol (setCol df (cn ++ "_clean")
        ((dtClean col).map optStrCell)) cn ((dtSer col).map optTsCell)) (dtSer col))
        (cn ++ "_clean")) := by
  rw [pdt_eq_some h true, if_pos hv]
  rfl

theorem pdt_eq_noderived {df : Df} {cn : String} {col : List Cell}
    (h : getCol df cn = some col) (hv : 0 < dtValid col) :
    (parse_datetime_column df cn false).1 =
      durationStep (dropCol (setCol (setCol df (cn ++ "_clean")
        ((dtClean col).map optStrCell)) cn ((dtSer col).map optTsCell))
        (cn ++ "_clean")) := by
  rw [pdt_eq_some h false, if_pos hv]
  rfl

theorem pdt_eq_invalid {df : Df} {cn : String} {col : List Cell}
    (h : getCol df cn = some col) (hv : ¬0 < dtValid col) (b : Bool) :
    (parse_datetime_column df cn b).1 =
      durationStep (dropCol (setCol df (cn ++ "_clean")
        ((dtClean col).map optStrCell)) (cn ++ "_clean")) := by
  rw [pdt_eq_some h b, if_neg hv]

theorem durFire_durationStep {X : Df} {v : List Cell}
    (h : durFire (durationStep X) = some v) :
    getCol (durationStep X) "duration_minutes" = some v := by
  cases hf : durFire X with
  | none =>
    simp only [durationStep, hf] at h ⊢
    exact Option.noConfusion h
  | some w =>
    simp only [durationStep, hf] at h ⊢
    have hcong : durFire (setCol X "duration_minutes" w) = durFire X :=
      durFire_congr (getCol_setCol_ne X w (by decide)) (getCol_setCol_ne X w (by decide))
    rw [hcong, hf] at h
    rw [getCol_setCol_self]
    exact congrArg some (Option.some.inj h)

theorem pdt_dm_consistent {df : Df} {cn : String} {col : List Cell}
    (hget : getCol df cn = some col) (b : Bool) :
    ∀ v, durFire (parse_datetime_column df cn b).1 = some v →
      getCol (parse_datetime_column df cn b).1 "duration_minutes" = some v := by
  rw [pdt_eq_some hget b]
  intro v hv
  exact durFire_durationStep hv

theorem inert_map {dt : List (Option Timestamp)} {f : Option Timestamp → Cell}
    (hf : ∀ o, DTInert (f o)) : ∀ c ∈ dt.map f, DTInert c := by
  intro c hc
  obtain ⟨o, _, rfl⟩ := List.mem_map.mp hc
  exact hf o

theorem inert_zipWith : ∀ (s e : List Cell), ∀ c ∈ List.zipWith durCell s e, DTInert c := by
  intro s
  induction s with
  | nil => intro e c hc; simp at hc
  | cons a s ih =>
    intro e c hc
    cases e with
    | nil => simp at hc
    | cons b e =>
      rw [List.zipWith_cons_cons] at hc
      rcases List.mem_cons.mp hc with rfl | hc2
      · exact dtInert_durCell a b
      · exact ih e c hc2

theorem durFire_inert {X : Df} {v : List Cell} (h : durFire X = some v) :
    ∀ c ∈ v, DTInert c := by
  cases hs : getCol X "start_time" with
  | none =>
    simp only [durFire, hs] at h
    exact Option.noConfusion h
  | some s =>
    cases he : getCol X "end_time" with
    | none =>
      simp only [durFire, hs, he] at h
      exact Option.noConfusion h
    | some e =>
      simp only [durFire, hs, he] at h
      split_ifs at h with hd
      rw [← Option.some.inj h]
      exact inert_zipWith s e

theorem inertCol_setCol {X : Df} {cn : String} {col1 : List Cell}
    (h : getCol X cn = some col1) (hin : ∀ c ∈ col1, DTInert c)
    (n : String) {v : List Cell} (hv : ∀ c ∈ v, DTInert c) :
    ∃ col2, getCol (setCol X n v) cn = some col2 ∧ ∀ c ∈ col2, DTInert c := by
  by_cases hn : cn = n
  · subst hn
    exact ⟨v, getCol_setCol_self X cn v, hv⟩
  · exact ⟨col1, by rw [getCol_setCol_ne _ _ hn, h], hin⟩

theorem inertCol_derivedStep {X : Df} {cn : String} {col1 : List Cell}
    (h : getCol X cn = some col1) (hin : ∀ c ∈ col1, DTInert c)
    (dt : List (Option Timestamp)) :
    ∃ col2, getCol (derivedStep X dt) cn = some col2 ∧ ∀ c ∈ col2, DTInert c := by
  obtain ⟨c1, h1, hi1⟩ := inertCol_setCol h hin "hour" (inert_map dtInert_hourCell)
  obtain ⟨c2, h2, hi2⟩ := inertCol_setCol h1 hi1 "date" (inert_map dtInert_dateCell)
  obtain ⟨c3, h3, hi3⟩ := inertCol_setCol h2 hi2 "day_of_week" (inert_map dtInert_dowCell)
  obtain ⟨c4, h4, hi4⟩ := inertCol_setCol h3 hi3 "month" (inert_map dtInert_monthCell)
  obtain ⟨c5, h5, hi5⟩ := inertCol_setCol h4 hi4 "year" (inert_map dtInert_yearCell)
  exact ⟨c5, h5, hi5⟩

theorem inertCol_durationStep {X : Df} {cn : String} {col1 : List Cell}
    (h : getCol X cn = some col1) (hin : ∀ c ∈ col1, DTInert c) :
    ∃ col2, getCol (durationStep X) cn = some col2 ∧ ∀ c ∈ col2, DTInert c := by
  cases hf : durFire X with
  | none =>
    simp only [durationStep, hf]
    exact ⟨col1, h, hin⟩
  | some v =>
    simp only [durationStep, hf]
    exact inertCol_setCol h hin "duration_minutes" (durFire_inert hf)

theorem pdt_first_inert (df : Df) (cn : String) (b : Bool) (col : List Cell)
    (hget : getCol df cn = some col) :
    ∃ col1, getCol (parse_datetime_column df cn b).1 cn = some col1 ∧
      ∀ c ∈ col1, DTInert c := by
  by_cases hv : 0 < dtValid col
  · have h2 : getCol (setCol (setCol df (cn ++ "_clean") ((dtClean col).map optStrCell))
        cn ((dtSer col).map optTsCell)) cn = some ((dtSer col).map optTsCell) :=
      getCol_setCol_self _ cn _
    have hiP : ∀ c ∈ (dtSer col).map optTsCell, DTInert c := inert_map dtInert_optTsCell
    cases b with
    | false =>
      rw [pdt_eq_noderived hget hv]
      have h4 : getCol (dropCol (setCol (setCol df (cn ++ "_clean")
          ((dtClean col).map optStrCell)) cn ((dtSer col).map optTsCell))
          (cn ++ "_clean")) cn = some ((dtSer col).map optTsCell) := by
        rw [getCol_dropCol_ne _ (ne_clean_self cn)]
        exact h2
      exact inertCol_durationStep h4 hiP
    | true =>
      rw [pdt_eq_derived hget hv]
      obtain ⟨c2, h3, hi3⟩ := inertCol_derivedStep h2 hiP (dtSer col)
      have h4 : getCol (dropCol (derivedStep (setCol (setCol df (cn ++ "_clean")
          ((dtClean col).map optStrCell)) cn ((dtSer col).map optTsCell)) (dtSer col))
          (cn ++ "_clean")) cn = some c2 := by
        rw [getCol_dropCol_ne _ (ne_clean_self cn)]
        exact h3
      exact inertCol_durationStep h4 hi3
  · rw [pdt_eq_invalid hget hv b]
    have hin : ∀ c ∈ col, DTInert c :=
      all_inert_of_dtValid_zero (by omega)
    have h4 : getCol (dropCol (setCol df (cn ++ "_clean")
        ((dtClean col).map optStrCell)) (cn ++ "_clean")) cn = some col := by
      rw [getCol_dropCol_ne _ (ne_clean_self cn), getCol_setCol_ne _ _ (ne_clean_self cn)]
      exact hget
    exact inertCol_durationStep h4 hin

theorem pdt_inert_noop (dfA : Df) (cn : String) (b : Bool) (col1 : List Cell)
    (hget : getCol dfA cn = some col1) (hin : ∀ c ∈ col1, DTInert c)
    (hdm : cn = "duration_minutes" → ∀ v, durFire dfA = some v →
      getCol dfA cn = some v) :
    getCol (parse_datetime_column dfA cn b).1 cn = some col1 := by
  have hvalid : dtValid col1 = 0 := dtValid_eq_zero hin
  rw [pdt_eq_invalid hget (by omega) b]
  have hXcn : ∀ m : String, m ≠ cn ++ "_clean" →
      getCol (dropCol (setCol dfA (cn ++ "_clean") ((dtClean col1).map optStrCell))
        (cn ++ "_clean")) m = getCol dfA m := by
    intro m hm
    rw [getCol_dropCol_ne _ hm, getCol_setCol_ne _ _ hm]
  have hXc : getCol (dropCol (setCol dfA (cn ++ "_clean") ((dtClean col1).map optStrCell))
      (cn ++ "_clean")) cn = some col1 := by
    rw [hXcn cn (ne_clean_self cn)]
    exact hget
  have hst := hXcn "start_time" (Ne.symm (no_clean_start cn))
  have het := hXcn "end_time" (Ne.symm (no_clean_end cn))
  have hfcong : durFire (dropCol (setCol dfA (cn ++ "_clean")
      ((dtClean col1).map optStrCell)) (cn ++ "_clean")) = durFire dfA :=
    durFire_congr hst het
  cases hf : durFire (dropCol (setCol dfA (cn ++ "_clean")
      ((dtClean col1).map optStrCell)) (cn ++ "_clean")) with
  | none =>
    simp only [durationStep, hf]
    exact hXc
  | some v =>
    simp only [durationStep, hf]
    by_cases hcn : cn = "duration_minutes"
    · subst hcn
      have hv : v = col1 := by
        have h2 := hdm rfl v (hfcong.symm.trans hf)
        rw [hget] at h2
        exact (Option.some.inj h2).symm
      rw [getCol_setCol_self, hv]
    · rw [getCol_setCol_ne _ _ hcn]
      exact hXc

theorem pdt_idempotent (df : Df) (cn : String) (b : Bool) :
    getCol (parse_datetime_column (parse_datetime_column df cn b).1 cn b).1 cn =
      getCol (parse_datetime_column df cn b).1 cn := by
  cases hget : getCol df cn with
  | none => simp only [pdt_eq_none hget b]
  | some col =>
    obtain ⟨col1, h1, hi1⟩ := pdt_first_inert df cn b col hget
    have hdm : cn = "duration_minutes" → ∀ v,
        durFire (parse_datetime_column df cn b).1 = some v →
        getCol (parse_datetime_column df cn b).1 cn = some v := by
      intro hcn v hv
      subst hcn
      exact pdt_dm_consistent hget b v hv
    rw [pdt_inert_noop _ cn b col1 h1 hi1 hdm, h1]

theorem pdt_flag_iff {df : Df} {cn : String} {col : List Cell}
    (hget : getCol df cn = some col) (b : Bool) :
    (parse_datetime_column df cn b).2 = true ↔
      ∃ c ∈ col, ((clean_date_format c).bind parseTS).isSome = true := by
  rw [pdt_flag hget b, decide_eq_true_iff]
  unfold dtValid dtSer dtClean
  rw [List.countP_pos_iff, List.map_map]
  constructor
  · rintro ⟨o, ho, hp⟩
    obtain ⟨c, hc, rfl⟩ := List.mem_map.mp ho
    exact ⟨c, hc, hp⟩
  · rintro ⟨c, hc, hp⟩
    refine ⟨(clean_date_format c).bind parseTS, ?_, hp⟩
    exact List.mem_map.mpr ⟨c, hc, rfl⟩

theorem pdt_failure_frame {df : Df} {cn : String} {col : List Cell}
    (hget : getCol df cn = some col) (b : Bool) (hv : ¬0 < dtValid col)
    (hcn : cn ≠ "duration_minutes") :
    getCol (parse_datetime_column df cn b).1 cn = some col := by
  rw [pdt_eq_invalid hget hv b, getCol_durationStep_ne _ hcn,
    getCol_dropCol_ne _ (ne_clean_self cn), getCol_setCol_ne _ _ (ne_clean_self cn)]
  exact hget

theorem pdt_other_frame {df : Df} {cn : String} (b : Bool) {n : String}
    (h1 : n ≠ cn) (h2 : n ≠ cn ++ "_clean")
    (h3 : n ≠ "hour") (h4 : n ≠ "date") (h5 : n ≠ "day_of_week")
    (h6 : n ≠ "month") (h7 : n ≠ "year") (h8 : n ≠ "duration_minutes") :
    getCol (parse_datetime_column df cn b).1 n = getCol df n := by
  cases hget : getCol df cn with
  | none => simp only [pdt_eq_none hget b]
  | some col =>
    by_cases hv : 0 < dtValid col
    · cases b with
      | false =>
        rw [pdt_eq_noderived hget hv, getCol_durationStep_ne _ h8,
          getCol_dropCol_ne _ h2, getCol_setCol_ne _ _ h1, getCol_setCol_ne _ _ h2]
      | true =>
        rw [pdt_eq_derived hget hv, getCol_durationStep_ne _ h8, getCol_dropCol_ne _ h2]
        unfold derivedStep
        rw [getCol_setCol_ne _ _ h7, getCol_setCol_ne _ _ h6, getCol_setCol_ne _ _ h5,
          getCol_setCol_ne _ _ h4, getCol_setCol_ne _ _ h3,
          getCol_setCol_ne _ _ h1, getCol_setCol_ne _ _ h2]
    · rw [pdt_eq_invalid hget hv b, getCol_durationStep_ne _ h8,
        getCol_dropCol_ne _ h2, getCol_setCol_ne _ _ h2]

theorem durFire_length {X : Df} {r : Nat} (h : rectangular X r) {v : List Cell}
    (hf : durFire X = some v) : v.length = r := by
  cases hs : getCol X "start_time" with
  | none =>
    simp only [durFire, hs] at hf
    exact Option.noConfusion hf
  | some s =>
    cases he : getCol X "end_time" with
    | none =>
      simp only [durFire, hs, he] at hf
      exact Option.noConfusion hf
    | some e =>
      simp only [durFire, hs, he] at hf
      split_ifs at hf with hd
      rw [← Option.some.inj hf, List.length_zipWith,
        rectangular_getCol h hs, rectangular_getCol h he]
      simp

theorem rectangular_durationStep {X : Df} {r : Nat} (h : rectangular X r) :
    rectangular (durationStep X) r := by
  cases hf : durFire X with
  | none =>
    simp only [durationStep, hf]
    exact h
  | some v =>
    simp only [durationStep, hf]
    exact rectangular_setCol h (durFire_length h hf) _

theorem rectangular_derivedStep {X : Df} {r : Nat} (h : rectangular X r)
    {dt : List (Option Timestamp)} (hdt : dt.length = r) :
    rectangular (derivedStep X dt) r := by
  unfold derivedStep
  refine rectangular_setCol (rectangular_setCol (rectangular_setCol
    (rectangular_setCol (rectangular_setCol h ?_ _) ?_ _) ?_ _) ?_ _) ?_ _ <;>
    simp [hdt]

theorem pdt_rectangular {df : Df} {r : Nat} (h : rectangular df r)
    (cn : String) (b : Bool) : rectangular (parse_datetime_column df cn b).1 r := by
  cases hget : getCol df cn with
  | none =>
    simp only [pdt_eq_none hget b]
    exact h
  | some col =>
    have hcol : col.length = r := rectangular_getCol h hget
    have hW : ((dtClean col).map optStrCell).length = r := by simp [dtClean, hcol]
    have hP : ((dtSer col).map optTsCell).length = r := by
      simp [dtSer, dtClean, hcol]
    have hd : (dtSer col).length = r := by simp [dtSer, dtClean, hcol]
    by_cases hv : 0 < dtValid col
    · cases b with
      | false =>
        rw [pdt_eq_noderived hget hv]
        exact rectangular_durationStep (rectangular_dropCol
          (rectangular_setCol (rectangular_setCol h hW _) hP _) _)
      | true =>
        rw [pdt_eq_derived hget hv]
        exact rectangular_durationStep (rectangular_dropCol
          (rectangular_derivedStep
            (rectangular_setCol (rectangular_setCol h hW _) hP _) hd) _)
    · rw [pdt_eq_invalid hget hv b]
      exact rectangular_durationStep (rectangular_dropCol
        (rectangular_setCol h hW _) _)

theorem cnd_other_frame {n : String} : ∀ (cols : List String) (df : Df), n ∉ cols →
    getCol (clean_numeric_data df cols) n = getCol df n := by
  intro cols
  induction cols with
  | nil => intro df _; rfl
  | cons c cs ih =>
    intro df hn
    have hnc : n ≠ c := fun h => hn (by simp [h])
    have hncs : n ∉ cs := fun h => hn (by simp [h])
    show getCol (clean_numeric_data (mapCol df c cleanNumCell) cs) n = getCol df n
    rw [ih _ hncs, getCol_mapCol_ne _ _ hnc]

theorem cnd_rectangular {r : Nat} : ∀ (cols : List String) (df : Df), rectangular df r →
    rectangular (clean_numeric_data df cols) r := by
  intro cols
  induction cols with
  | nil => intro df h; exact h
  | cons c cs ih =>
    intro df h
    show rectangular (clean_numeric_data (mapCol df c cleanNumCell) cs) r
    exact ih _ (rectangular_mapCol h c cleanNumCell)

/-!
## The claims
-/

/-- C1: the spec's numeric test vectors, evaluated on the code.  A cell
`cnum m e` is the value `m / 10 ^ e`.  Four vectors hold:
`"23,418.082"` gives 23418.082, `"123,45"` gives 123.45, and `""` and
`"nan"` give the missing marker.  The fifth fails: the claim says
`"1,234"` gives 1234, but the comma-only branch treats a 3-character
second group as decimal, so the code yields 1.234 (`cnum 1234 3`), not
1234 (`cnum 1234 0`) — contradicting the code's own inline comment
`"1,234" -> "1234"` on the thousands-separator branch. -/
theorem c1_numeric_vectors :
    cleanNumCell (Cell.cstr "23,418.082".toList) = Cell.cnum 23418082 3 ∧
    cleanNumCell (Cell.cstr "123,45".toList) = Cell.cnum 12345 2 ∧
    cleanNumCell (Cell.cstr "".toList) = Cell.na ∧
    cleanNumCell (Cell.cstr "nan".toList) = Cell.na ∧
    cleanNumCell (Cell.cstr "1,234".toList) = Cell.cnum 1234 3 ∧
    Cell.cnum 1234 3 ≠ Cell.cnum 1234 0 := by decide

/-- C2: on every input string the numeric normalizer implements exactly the
spec's ordered policy (no digit → missing; comma and period → strip commas;
only comma with exactly 2 groups and a 1-3-character second group → comma
becomes the decimal point; only comma otherwise → strip commas; otherwise
pass through), `cleanPolicySpec` being that policy transcribed from the
spec's wording. -/
theorem c2_numeric_policy : ∀ s : Str, cleanEuropeanStr s = cleanPolicySpec s :=
  cleanEuropeanStr_eq_policy

/-- C3 counterexample: the claim's second half fails when the parsed column
is named `duration_minutes` while `start_time` and `end_time` are datetime
columns: parsing fails (success = false) yet the function's trailing
duration computation overwrites the column, so it is not unchanged. -/
theorem c3_counterexample :
    (parse_datetime_column
      [("start_time", [Cell.cts ⟨2025, 8, 18, 6, 0, 0⟩]),
       ("end_time", [Cell.cts ⟨2025, 8, 18, 6, 30, 0⟩]),
       ("duration_minutes", [Cell.cstr "zz".toList])]
      "duration_minutes" false).2 = false ∧
    getCol (parse_datetime_column
      [("start_time", [Cell.cts ⟨2025, 8, 18, 6, 0, 0⟩]),
       ("end_time", [Cell.cts ⟨2025, 8, 18, 6, 30, 0⟩]),
       ("duration_minutes", [Cell.cstr "zz".toList])]
      "duration_minutes" false).1 "duration_minutes" ≠
      some [Cell.cstr "zz".toList] := by decide

/-- C3 (amended): for every dataframe and existing column,
`parse_datetime_column` returns success = true iff at least one row of the
column parses under the fixed format after cleaning; and when no row parses
(success = false) the original column is unchanged in the returned
dataframe, provided the column is not `duration_minutes` (which the
trailing duration computation may overwrite regardless of success). -/
theorem c3_amended : ∀ (df : Df) (cn : String) (b : Bool) (col : List Cell),
    getCol df cn = some col →
    ((parse_datetime_column df cn b).2 = true ↔
      ∃ c ∈ col, ((clean_date_format c).bind parseTS).isSome = true) ∧
    ((parse_datetime_column df cn b).2 = false → cn ≠ "duration_minutes" →
      getCol (parse_datetime_column df cn b).1 cn = some col) := by
  intro df cn b col hget
  refine ⟨pdt_flag_iff hget b, ?_⟩
  intro hflag hcn
  have hv : ¬0 < dtValid col := by
    rw [pdt_flag hget b] at hflag
    simpa using hflag
  exact pdt_failure_frame hget b hv hcn

/-- C3 witness: the amended theorem at a one-row dataframe whose cell is the
spec's example date string, which parses, so the success flag is true. -/
theorem c3_witness :
    (parse_datetime_column
      [("t", [Cell.cstr "Aug 18, 2025 @ 06:00:00.000".toList])] "t" true).2 = true :=
  ((c3_amended [("t", [Cell.cstr "Aug 18, 2025 @ 06:00:00.000".toList])] "t" true
    [Cell.cstr "Aug 18, 2025 @ 06:00:00.000".toList] (by decide)).1).mpr (by decide)

/-- C4: in the drill-down state machine, selecting a genuinely new value at
level 1 (Departamento), 2 (Provincia) or 3 (Distrito) — not the
placeholder — stores that selection and clears every deeper stored
selection: a new Departamento clears Provincia, Distrito and Localidad; a
new Provincia clears Distrito and Localidad; a new Distrito clears
Localidad. -/
theorem c4_drilldown_select : ∀ (st : DrillState) (sel : String),
    sel ≠ "Seleccionar..." →
    (st.selected_departamento ≠ some sel →
      selectDepartamento st sel =
        { selected_departamento := some sel, selected_provincia := none,
          selected_distrito := none, selected_localidad := none }) ∧
    (st.selected_provincia ≠ some sel →
      selectProvincia st sel =
        { st with
          selected_provincia := some sel
          selected_distrito := none
          selected_localidad := none }) ∧
    (st.selected_distrito ≠ some sel →
      selectDistrito st sel =
        { st with selected_distrito := some sel, selected_localidad := none }) := by
  intro st sel hsel
  refine ⟨?_, ?_, ?_⟩ <;> intro hne <;>
    simp [selectDepartamento, selectProvincia, selectDistrito, reset_lower_levels,
      hsel, hne]

/-- C4 witness: the selection transition at a concrete fully-populated
state. -/
theorem c4_witness :
    selectDepartamento ⟨some "Lima", some "Callao", some "Bellavista", some "Beta"⟩
      "Cusco" = ⟨some "Cusco", none, none, none⟩ :=
  (c4_drilldown_select ⟨some "Lima", some "Callao", some "Bellavista", some "Beta"⟩
    "Cusco" (by decide)).1 (by decide)

/-- C5 counterexample: choosing the placeholder `"Seleccionar..."` does not
clear the level's stored selection — the handler's outer guard skips all
updates, so a fully-populated state keeps its Departamento (the claim says
it would be reset to none). -/
theorem c5_counterexample :
    (selectDepartamento ⟨some "Lima", some "Callao", some "Bellavista", some "Beta"⟩
      "Seleccionar...").selected_departamento = some "Lima" ∧
    (selectProvincia ⟨some "Lima", some "Callao", some "Bellavista", some "Beta"⟩
      "Seleccionar...").selected_provincia = some "Callao" := by decide

/-- C5 (amended): choosing the placeholder `"Seleccionar..."` at any level
is a no-op on the stored drill-down state — it neither clears that level
nor any deeper one (the reset-from-that-level behaviour the claim states
does not happen). -/
theorem c5_amended : ∀ st : DrillState,
    selectDepartamento st "Seleccionar..." = st ∧
    selectProvincia st "Seleccionar..." = st ∧
    selectDistrito st "Seleccionar..." = st := by
  intro st
  refine ⟨?_, ?_, ?_⟩ <;> simp [selectDepartamento, selectProvincia, selectDistrito]

/-- A row is kept by the site filter iff its site-column value is a string
in the selection. -/
theorem rowInSites_iff (siteCol : String) (sel : List Str) (r : Row) :
    rowInSites siteCol sel r = true ↔
      ∃ v, lookupCell r siteCol = some (Cell.cstr v) ∧ v ∈ sel := by
  unfold rowInSites
  cases hlk : lookupCell r siteCol with
  | none => simp
  | some cell => cases cell <;> simp

/-- C6: with a recognized site column, filtering by a non-empty selection
keeps exactly the rows whose site-column value is a member of the
selection, and an empty selection returns the dataset unfiltered. -/
theorem c6_site_filter : ∀ (rows : List Row) (siteCol : String) (sel : List Str),
    (sel ≠ [] → ∀ r, r ∈ filter_by_sites rows siteCol sel ↔
      (r ∈ rows ∧ ∃ v, lookupCell r siteCol = some (Cell.cstr v) ∧ v ∈ sel)) ∧
    filter_by_sites rows siteCol [] = rows := by
  intro rows siteCol sel
  constructor
  · intro hsel r
    unfold filter_by_sites
    rw [if_neg (by simpa using hsel)]
    rw [List.mem_filter]
    rw [rowInSites_iff]
  · rfl

/-- C6 witness: the filter at a concrete two-row dataset and a one-site
selection. -/
theorem c6_witness :
    ([("site", Cell.cstr "A".toList)] ∈ filter_by_sites
      [[("site", Cell.cstr "A".toList)], [("site", Cell.cstr "B".toList)]]
      "site" ["A".toList] ↔
      ([("site", Cell.cstr "A".toList)] ∈
        [[("site", Cell.cstr "A".toList)], [("site", Cell.cstr "B".toList)]] ∧
       ∃ v, lookupCell [("site", Cell.cstr "A".toList)] "site" =
        some (Cell.cstr v) ∧ v ∈ ["A".toList])) ∧
    filter_by_sites
      [[("site", Cell.cstr "A".toList)], [("site", Cell.cstr "B".toList)]]
      "site" [] =
      [[("site", Cell.cstr "A".toList)], [("site", Cell.cstr "B".toList)]] :=
  ⟨(c6_site_filter [[("site", Cell.cstr "A".toList)], [("site", Cell.cstr "B".toList)]]
      "site" ["A".toList]).1 (by decide) _,
   (c6_site_filter [[("site", Cell.cstr "A".toList)], [("site", Cell.cstr "B".toList)]]
      "site" []).2⟩

/-- C7: both normalizers are idempotent on values.  A second
`clean_numeric_data` pass over an already-cleaned column changes no value
(cell-wise map composition collapses), and a second `parse_datetime_column`
run on a column it already processed leaves every value of that column
unchanged (the second parse finds nothing, so the column is kept). -/
theorem c7_idempotent :
    (∀ col : List Cell, (col.map cleanNumCell).map cleanNumCell = col.map cleanNumCell) ∧
    (∀ (df : Df) (cn : String) (b : Bool),
      getCol (parse_datetime_column (parse_datetime_column df cn b).1 cn b).1 cn =
        getCol (parse_datetime_column df cn b).1 cn) := by
  constructor
  · intro col
    rw [List.map_map]
    exact List.map_congr_left (fun c _ => cleanNumCell_idem c)
  · exact pdt_idempotent

/-- C8 counterexample: the site-column lookup is not case-insensitive — a
dataframe whose only site column is named `"Site"` (or `"SITE"`) is not
found, because the code compares against the four literal candidates
only. -/
theorem c8_counterexample :
    find_site_column ["Site"] = none ∧ find_site_column ["SITE"] = none := by decide

/-- C8 (amended): `find_site_column` checks the exact names `Site_Name`,
`site_name`, `SITE_NAME`, `site`, in that order, returning the first one
literally present; any returned column is one of these candidates and is
present, and whenever some candidate is present a column is found.  Other
letter cases (such as `Site` or `SITE`) are not recognized. -/
theorem c8_amended : ∀ cols : List String,
    (∀ c, find_site_column cols = some c → c ∈ siteColumnCandidates ∧ c ∈ cols) ∧
    ((∃ c ∈ siteColumnCandidates, c ∈ cols) → (find_site_column cols).isSome = true) := by
  intro cols
  constructor
  · intro c hc
    unfold find_site_column at hc
    refine ⟨List.mem_of_find?_eq_some hc, ?_⟩
    have h2 := List.find?_some hc
    exact List.mem_of_elem_eq_true h2
  · rintro ⟨c, hc1, hc2⟩
    unfold find_site_column
    rw [List.find?_isSome]
    exact ⟨c, hc1, List.elem_eq_true_of_mem hc2⟩

/-- C8 witness: the amended lookup at a dataframe containing
`site_name`. -/
theorem c8_witness :
    ("site_name" ∈ siteColumnCandidates ∧ "site_name" ∈ ["x", "site_name"]) ∧
    (find_site_column ["x", "site_name"]).isSome = true :=
  ⟨(c8_amended ["x", "site_name"]).1 "site_name" (by decide),
   (c8_amended ["x", "site_name"]).2 ⟨"site_name", by decide, by decide⟩⟩

/-- C9: `detect_dataset_type` returns a category exactly when the
lowercased filename contains one of the fixed keywords: any returned
category has a matching keyword of its own rule, `none` is returned iff no
rule's keyword matches, and on an unrecognized filename the upload handler
leaves every entry of the session dataset mapping unchanged (only a
warning is shown). -/
theorem c9_detect : ∀ filename : String,
    (∀ c, detect_dataset_type filename = some c →
      ∃ r ∈ detection_rules, r.1 = c ∧
        ∃ kw ∈ r.2, containsSub (filename.toList.map lowerA) kw = true) ∧
    (detect_dataset_type filename = none ↔
      ∀ r ∈ detection_rules, ∀ kw ∈ r.2,
        containsSub (filename.toList.map lowerA) kw = false) ∧
    (∀ (ds : Datasets) (df : Df), detect_dataset_type filename = none →
      processFile ds filename df = ds) := by
  intro filename
  refine ⟨?_, ?_, ?_⟩
  · intro c hc
    unfold detect_dataset_type at hc
    cases hf : detection_rules.find?
        (fun r => r.2.any fun kw => containsSub (filename.toList.map lowerA) kw) with
    | none => rw [hf] at hc; exact Option.noConfusion hc
    | some r =>
      rw [hf] at hc
      simp only [Option.map_some', Option.some.injEq] at hc
      refine ⟨r, List.mem_of_find?_eq_some hf, hc, ?_⟩
      have h2 := List.find?_some hf
      exact List.any_eq_true.mp h2
  · unfold detect_dataset_type
    rw [Option.map_eq_none', List.find?_eq_none]
    constructor
    · intro h r hr kw hkw
      have h2 := h r hr
      rw [Bool.eq_false_iff]
      intro hx
      exact h2 (List.any_eq_true.mpr ⟨kw, hkw, hx⟩)
    · intro h r hr
      intro hx
      obtain ⟨kw, hkw, hsub⟩ := List.any_eq_true.mp hx
      rw [h r hr kw hkw] at hsub
      exact Bool.noConfusion hsub
  · intro ds df hn
    unfold processFile
    rw [hn]

/-- C9 witness: a recognized filename matched by the fault rule, and an
unrecognized filename leaving a concrete mapping untouched. -/
theorem c9_witness :
    (∃ r ∈ detection_rules, r.1 = DType.Averias ∧
      ∃ kw ∈ r.2, containsSub ("Averias_Julio.csv".toList.map lowerA) kw = true) ∧
    processFile [(DType.Averias, none)] "resumen.csv" [] = [(DType.Averias, none)] :=
  ⟨(c9_detect "Averias_Julio.csv").1 DType.Averias (by decide),
   (c9_detect "resumen.csv").2.2 [(DType.Averias, none)] [] (by decide)⟩

/-- C10 counterexample: a dataframe that already has a column literally
named `t_clean` loses it when `parse_datetime_column` runs on column `t` —
the helper column name collides and is dropped, so a column other than the
requested and derived ones is changed. -/
theorem c10_counterexample :
    getCol (parse_datetime_column
      [("t", [Cell.cstr "x".toList]), ("t_clean", [Cell.cstr "y".toList])]
      "t" true).1 "t_clean" ≠
    getCol [("t", [Cell.cstr "x".toList]), ("t_clean", [Cell.cstr "y".toList])]
      "t_clean" := by decide

/-- C10 (amended): the normalizers are pure (the model's functions return a
new dataframe; the source copies before mutating), and: a column not listed
is unchanged by `clean_numeric_data`; a column other than the requested
one, the temporary `<name>_clean` helper (removed if it pre-exists), and
the derived fields `hour`, `date`, `day_of_week`, `month`, `year`,
`duration_minutes` is unchanged by `parse_datetime_column`; and both
functions preserve the number of rows of every column. -/
theorem c10_amended : ∀ (df : Df) (cols : List String) (cn : String) (b : Bool)
    (n : String) (r : Nat),
    (n ∉ cols → getCol (clean_numeric_data df cols) n = getCol df n) ∧
    (n ≠ cn → n ≠ cn ++ "_clean" → n ≠ "hour" → n ≠ "date" → n ≠ "day_of_week" →
      n ≠ "month" → n ≠ "year" → n ≠ "duration_minutes" →
      getCol (parse_datetime_column df cn b).1 n = getCol df n) ∧
    (rectangular df r → rectangular (clean_numeric_data df cols) r ∧
      rectangular (parse_datetime_column df cn b).1 r) := by
  intro df cols cn b n r
  exact ⟨fun h => cnd_other_frame cols df h,
    fun h1 h2 h3 h4 h5 h6 h7 h8 => pdt_other_frame b h1 h2 h3 h4 h5 h6 h7 h8,
    fun h => ⟨cnd_rectangular cols df h, pdt_rectangular h cn b⟩⟩

/-- C10 witness: the amended frame conditions at a concrete two-column
dataframe. -/
theorem c10_witness :
    getCol (clean_numeric_data [("a", [Cell.na]), ("keep", [Cell.na])] ["a"]) "keep" =
      getCol [("a", [Cell.na]), ("keep", [Cell.na])] "keep" ∧
    getCol (parse_datetime_column [("a", [Cell.na]), ("keep", [Cell.na])] "a" true).1
        "keep" = getCol [("a", [Cell.na]), ("keep", [Cell.na])] "keep" ∧
    rectangular (clean_numeric_data [("a", [Cell.na]), ("keep", [Cell.na])] ["a"]) 1 :=
  have h := c10_amended [("a", [Cell.na]), ("keep", [Cell.na])] ["a"] "a" true "keep" 1
  ⟨h.1 (by decide),
   h.2.1 (by decide) (by decide) (by decide) (by decide) (by decide) (by decide)
     (by decide) (by decide),
   (h.2.2 (by decide)).1⟩

end NetDash
